import Mathlib

/-!
A verification development for the queue storage engine of `claude-q`
(`src/claude_q/core.py`).  The Python code is shallowly embedded: JSON values
become an inductive type, the filesystem becomes an explicit store state,
machine-level library calls (`urllib.parse.quote`, `hashlib.sha256`,
`str.strip`, UTF-8 encoding) are reimplemented as executable Lean functions,
and each `QueueStore` operation becomes a state-passing function returning an
`Except` outcome together with the post-state.
-/

set_option autoImplicit false

namespace ClaudeQ

/-! ## Python string helpers

`str.strip()` with no argument removes leading and trailing whitespace
(modelled here over the ASCII whitespace characters space, tab, newline,
carriage return, vertical tab and form feed; Python additionally strips some
rarer Unicode space characters, which no claim depends on). -/

def pyIsSpace (c : Char) : Bool :=
  c.toNat == 32 || c.toNat == 9 || c.toNat == 10 ||
  c.toNat == 13 || c.toNat == 11 || c.toNat == 12

/-- Drop elements satisfying `p` from both ends of a list. -/
def stripWhile (p : Char → Bool) (l : List Char) : List Char :=
  ((l.dropWhile p).reverse.dropWhile p).reverse

/-- Python `s.strip()`. -/
def pyStrip (s : String) : String :=
  String.mk (stripWhile pyIsSpace s.data)

/-- Python `s.strip(".")`: remove leading and trailing `'.'` characters. -/
def stripDots (l : List Char) : List Char :=
  stripWhile (fun c => c == '.') l

/-! ## UTF-8 encoding (Python `str.encode("utf-8")`), as byte values 0..255 -/

def utf8Bytes (c : Char) : List Nat :=
  let n := c.toNat
  if n < 128 then [n]
  else if n < 2048 then [192 + n / 64, 128 + n % 64]
  else if n < 65536 then [224 + n / 4096, 128 + n / 64 % 64, 128 + n % 64]
  else [240 + n / 262144, 128 + n / 4096 % 64, 128 + n / 64 % 64, 128 + n % 64]

def strUtf8 (s : String) : List Nat :=
  s.data.flatMap utf8Bytes

/-! ## SHA-256 (`hashlib.sha256(...).hexdigest()`)

A direct executable implementation over byte lists, with 32-bit words
represented as `Nat` reduced modulo `2 ^ 32`. -/

def w32 (n : Nat) : Nat := n % 4294967296

def rotr32 (n k : Nat) : Nat := w32 ((n >>> k) ||| (n <<< (32 - k)))

def not32 (n : Nat) : Nat := n ^^^ 4294967295

def sWord0 (x : Nat) : Nat := (rotr32 x 7) ^^^ (rotr32 x 18) ^^^ (x >>> 3)
def sWord1 (x : Nat) : Nat := (rotr32 x 17) ^^^ (rotr32 x 19) ^^^ (x >>> 10)
def bWord0 (x : Nat) : Nat := (rotr32 x 2) ^^^ (rotr32 x 13) ^^^ (rotr32 x 22)
def bWord1 (x : Nat) : Nat := (rotr32 x 6) ^^^ (rotr32 x 11) ^^^ (rotr32 x 25)

def sha256K : List Nat :=
  [1116352408, 1899447441, 3049323471, 3921009573, 961987163,
   1508970993, 2453635748, 2870763221, 3624381080, 310598401,
   607225278, 1426881987, 1925078388, 2162078206, 2614888103,
   3248222580, 3835390401, 4022224774, 264347078, 604807628,
   770255983, 1249150122, 1555081692, 1996064986, 2554220882,
   2821834349, 2952996808, 3210313671, 3336571891, 3584528711,
   113926993, 338241895, 666307205, 773529912, 1294757372,
   1396182291, 1695183700, 1986661051, 2177026350, 2456956037,
   2730485921, 2820302411, 3259730800, 3345764771, 3516065817,
   3600352804, 4094571909, 275423344, 430227734, 506948616,
   659060556, 883997877, 958139571, 1322822218, 1537002063,
   1747873779, 1955562222, 2024104815, 2227730452, 2361852424,
   2428436474, 2756734187, 3204031479, 3329325298]

/-- Working state: the eight 32-bit hash words. -/
structure H8 where
  a : Nat
  b : Nat
  c : Nat
  d : Nat
  e : Nat
  f : Nat
  g : Nat
  h : Nat

def sha256H0 : H8 :=
  ⟨1779033703, 3144134277, 1013904242, 2773480762,
   1359893119, 2600822924, 528734635, 1541459225⟩

/-- Big-endian 4-byte groups to 32-bit words. -/
def bytesToWords : List Nat → List Nat
  | b0 :: b1 :: b2 :: b3 :: rest =>
      (((b0 * 256 + b1) * 256 + b2) * 256 + b3) :: bytesToWords rest
  | _ => []

/-- Extend the 16-word schedule by `n` further words. -/
def schedExtend : Nat → List Nat → List Nat
  | 0, ws => ws
  | n + 1, ws =>
      let t := ws.length
      let nw := w32 (sWord1 (ws.getD (t - 2) 0) + ws.getD (t - 7) 0 +
                     sWord0 (ws.getD (t - 15) 0) + ws.getD (t - 16) 0)
      schedExtend n (ws ++ [nw])

def compressWords (st : H8) : List (Nat × Nat) → H8
  | [] => st
  | (k, w) :: rest =>
      let ch := (st.e &&& st.f) ^^^ (not32 st.e &&& st.g)
      let maj := (st.a &&& st.b) ^^^ (st.a &&& st.c) ^^^ (st.b &&& st.c)
      let t1 := w32 (st.h + bWord1 st.e + ch + k + w)
      let t2 := w32 (bWord0 st.a + maj)
      compressWords
        ⟨w32 (t1 + t2), st.a, st.b, st.c, w32 (st.d + t1), st.e, st.f, st.g⟩
        rest

def addH8 (x y : H8) : H8 :=
  ⟨w32 (x.a + y.a), w32 (x.b + y.b), w32 (x.c + y.c), w32 (x.d + y.d),
   w32 (x.e + y.e), w32 (x.f + y.f), w32 (x.g + y.g), w32 (x.h + y.h)⟩

def compressBlock (st : H8) (block : List Nat) : H8 :=
  addH8 st (compressWords st (sha256K.zip (schedExtend 48 (bytesToWords block))))

/-- Split into 64-byte blocks. -/
def chunk64 : List Nat → List (List Nat)
  | [] => []
  | x :: xs => ((x :: xs).take 64) :: chunk64 ((x :: xs).drop 64)
termination_by l => l.length
decreasing_by simp; omega

/-- Big-endian 8-byte rendering of a length value. -/
def be8 (n : Nat) : List Nat :=
  (List.range 8).map (fun i => n / 256 ^ (7 - i) % 256)

/-- SHA-256 padding: `0x80`, zeros to 56 mod 64, then the 64-bit bit length. -/
def sha256pad (msg : List Nat) : List Nat :=
  let zeros := (120 - (msg.length + 1) % 64) % 64
  msg ++ (128 :: List.replicate zeros 0) ++ be8 (msg.length * 8)

def sha256words (msg : List Nat) : List Nat :=
  let st := (chunk64 (sha256pad msg)).foldl compressBlock sha256H0
  [st.a, st.b, st.c, st.d, st.e, st.f, st.g, st.h]

def hexDigitLower (n : Nat) : Char :=
  if n < 10 then Char.ofNat (48 + n) else Char.ofNat (87 + n)

/-- One 32-bit word as exactly eight lowercase hex characters. -/
def hex8 (wd : Nat) : List Char :=
  (List.range 8).map (fun i => hexDigitLower (wd / 16 ^ (7 - i) % 16))

/-- `hashlib.sha256(bytes).hexdigest()` as a character list (64 hex chars). -/
def sha256hexdigest (msg : List Nat) : List Char :=
  (sha256words msg).flatMap hex8


/-! ## Topic → filename encoding (`_topic_to_filename`) -/

/-- The source constant `_ALLOWED_TOPIC_CHARS` passed to `urllib.parse.quote`
as its `safe` parameter. -/
def ALLOWED_TOPIC_CHARS : String :=
  "abcdefghijklmnopqrstuvwxyzABCDEFGHIJKLMNOPQRSTUVWXYZ0123456789._-"

/-- The characters `urllib.parse.quote(t, safe=_ALLOWED_TOPIC_CHARS)` leaves
unencoded.  `quote` never encodes ASCII letters, digits, or `'_'`, `'.'`,
`'-'`, `'~'` (the RFC 3986 unreserved set), regardless of `safe`; every
character of `_ALLOWED_TOPIC_CHARS` already lies in that set (proved below),
so the effective allow-list is: letters, digits, and `. _ - ~`. -/
def quoteUnquoted (c : Char) : Bool :=
  let n := c.toNat
  (65 ≤ n && n ≤ 90) || (97 ≤ n && n ≤ 122) || (48 ≤ n && n ≤ 57) ||
  n == 46 || n == 95 || n == 45 || n == 126


def hexDigitUpper (n : Nat) : Char :=
  if n < 10 then Char.ofNat (48 + n) else Char.ofNat (55 + n)

/-- Percent-encode a single character: kept verbatim when in the allow-list,
otherwise each UTF-8 byte becomes `%XX` with uppercase hex. -/
def quoteChar (c : Char) : List Char :=
  if quoteUnquoted c then [c]
  else (utf8Bytes c).flatMap
    (fun b => ['%', hexDigitUpper (b / 16), hexDigitUpper (b % 16)])

/-- `urllib.parse.quote(t, safe=_ALLOWED_TOPIC_CHARS)`. -/
def pyQuote (t : String) : List Char :=
  t.data.flatMap quoteChar

/-- First 16 hex characters of the SHA-256 digest of a string's UTF-8 bytes:
`hashlib.sha256(t.encode("utf-8")).hexdigest()[:16]`. -/
def sha16 (t : String) : List Char :=
  (sha256hexdigest (strUtf8 t)).take 16

/-- The body of `_topic_to_filename` after the empty-topic check, applied
to the already-stripped topic `t`. -/
def encodeTrimmed (t : String) : String :=
  let safe := stripDots (pyQuote t)
  let safe := if safe = [] then sha16 t else safe
  if 180 < safe.length then
    String.mk (safe.take 150 ++ ('_' :: '_' :: sha16 t))
  else
    String.mk safe

/-- Error values raised by the queue store: Python `ValueError` and
`RuntimeError` (the corruption class). -/
inductive QError where
  | valueError (msg : String)
  | runtimeError (msg : String)
deriving DecidableEq, Repr

/-- `_topic_to_filename`: strip the topic, reject it if empty, then encode. -/
def topicToFilename (topic : String) : Except QError String :=
  let t := pyStrip topic
  if t = "" then .error (.valueError "topic is empty")
  else .ok (encodeTrimmed t)

/-! ## JSON values and Python dict operations

`Json` models the values `json.loads` can produce.  Numbers are modelled as
integers (the only number the store itself writes is `"version": 1`; arbitrary
numeric fields in hand-written files only ever flow through opaquely).
Objects are key/value lists in insertion order, as Python dicts preserve
insertion order; `json.loads` produces dicts with unique keys. -/

inductive Json where
  | null
  | bool (b : Bool)
  | num (n : Int)
  | str (s : String)
  | arr (elems : List Json)
  | obj (fields : List (String × Json))

/-- A message as held in memory: the field list of its JSON object. -/
abbrev Msg := List (String × Json)

/-- Python `d.get(k)`: the value stored at the first occurrence of key `k`
(dicts produced by `json.loads` have unique keys). -/
def getKey : List (String × Json) → String → Option Json
  | [], _ => none
  | (k', v') :: rest, k => if k' == k then some v' else getKey rest k

/-- Python `k in d`. -/
def hasKey (kvs : List (String × Json)) (k : String) : Bool :=
  (getKey kvs k).isSome

/-- Python `d[k] = v`: overwrite an existing key in place, else append. -/
def setKey : List (String × Json) → String → Json → List (String × Json)
  | [], k, v => [(k, v)]
  | (k', v') :: rest, k, v =>
      if k' == k then (k, v) :: rest else (k', v') :: setKey rest k v

/-- Python `m.get("uuid") == uid` for a string `uid`: true exactly when the
value is a string equal to `uid` (a missing key or a non-string value never
equals a Python `str`). -/
def jsonEqStr : Option Json → String → Bool
  | some (.str s), t => s == t
  | _, _ => false

def msgUuidIs (m : Msg) (uid : String) : Bool :=
  jsonEqStr (getKey m "uuid") uid

/-! ## Filesystem state

The text of a data file is abstracted by its parse outcome: every text is either
whitespace-only (or empty), invalid JSON, or valid JSON with a parsed value;
`json.dump` followed by `json.loads` round-trips the written value, so saving
is modelled as storing the JSON value directly.  The store state carries the
data files (name → content), whether the base directory has been created
(`ensure_base_dir` / `mkdir`), and how many atomic file replacements
(`_save_messages_unlocked`) have been performed.  Lock files hold no data and
are not part of the observable state. -/

inductive RawFile where
  | wsOnly
  | invalid
  | json (value : Json)

structure Store where
  baseDir : String
  files : List (String × RawFile)
  baseDirExists : Bool
  saveCount : Nat

def getFile : List (String × RawFile) → String → Option RawFile
  | [], _ => none
  | (n', v') :: rest, n => if n' == n then some v' else getFile rest n

def setFile : List (String × RawFile) → String → RawFile → List (String × RawFile)
  | [], n, v => [(n, v)]
  | (n', v') :: rest, n, v =>
      if n' == n then (n, v) :: rest else (n', v') :: setFile rest n v

/-- `ensure_base_dir`: create the base directory if missing. -/
def ensureBaseDir (st : Store) : Store :=
  { st with baseDirExists := true }

/-! ## Load and save (`_load_messages_unlocked`, `_save_messages_unlocked`) -/

/-- The corruption message `f"corrupt queue file for topic {topic!r}: {path}"`
(Python `repr` of a plain topic string renders as single quotes). -/
def corruptMsg (topic path : String) : String :=
  "corrupt queue file for topic \'" ++ topic ++ "\': " ++ path

/-- The minimal per-entry validation loop: keep an element only when it is a
mapping carrying both a `"uuid"` and a `"content"` key. -/
def filterValidMsgs : List Json → List Msg
  | [] => []
  | .obj kvs :: rest =>
      if hasKey kvs "uuid" && hasKey kvs "content"
      then kvs :: filterValidMsgs rest
      else filterValidMsgs rest
  | _ :: rest => filterValidMsgs rest

/-- The body of `_load_messages_unlocked` applied to the content of a data file:
missing or whitespace-only file is an empty queue; unparseable text, an
envelope whose `messages` is not a list, or a top-level value that is neither
an envelope nor a bare list, is a `RuntimeError`; otherwise the entries are
minimally validated. -/
def parseMessages (topic path : String) : Option RawFile → Except QError (List Msg)
  | none => .ok []
  | some .wsOnly => .ok []
  | some .invalid => .error (.runtimeError (corruptMsg topic path))
  | some (.json data) =>
      match data with
      | .obj kvs =>
          match getKey kvs "messages" with
          | some (.arr messages) => .ok (filterValidMsgs messages)
          | some _ =>
              .error (.runtimeError (corruptMsg topic path ++ " (messages not a list)"))
          | none => .error (.runtimeError (corruptMsg topic path))
      | .arr messages => .ok (filterValidMsgs messages)
      | _ => .error (.runtimeError (corruptMsg topic path))

def dataFileName (safe : String) : String := safe ++ ".json"

def dataFilePath (st : Store) (safe : String) : String :=
  st.baseDir ++ "/" ++ dataFileName safe

def loadMessagesUnlocked (st : Store) (topic : String) : Except QError (List Msg) :=
  match topicToFilename topic with
  | .error e => .error e
  | .ok safe =>
      parseMessages topic (dataFilePath st safe) (getFile st.files (dataFileName safe))

/-- The envelope `{"version": 1, "topic": topic, "messages": messages}`. -/
def envelope (topic : String) (msgs : List Msg) : Json :=
  .obj [("version", .num 1), ("topic", .str topic), ("messages", .arr (msgs.map Json.obj))]

/-- `_save_messages_unlocked`: atomically replace the data file with the
serialized envelope (one replacement).  The operations only call this after
`topicToFilename` has succeeded, so the error branch is unreachable from them
and leaves the state unchanged. -/
def saveMessagesUnlocked (st : Store) (topic : String) (msgs : List Msg) : Store :=
  match topicToFilename topic with
  | .error _ => st
  | .ok safe =>
      { st with
        baseDirExists := true
        files := setFile st.files (dataFileName safe) (.json (envelope topic msgs))
        saveCount := st.saveCount + 1 }

/-! ## High-level operations

Each operation mirrors its Python counterpart, including the order of effects
inside `lock_topic`: first `ensure_base_dir` (the base directory is created
even when the topic later fails validation), then `paths_for_topic` (which
raises `ValueError` on an empty-after-strip topic), then the locked body.
The random `uuid.uuid4()` and the clock `_utc_now_iso()` enter as explicit
parameters `uid` / `created` / `updated`. -/

def mkMsg (uid created content : String) : Msg :=
  [("uuid", .str uid), ("created", .str created), ("content", .str content)]

def append (st : Store) (uid created : String) (topic content : String) :
    Except QError String × Store :=
  let msg := mkMsg uid created content
  let st1 := ensureBaseDir st
  match topicToFilename topic with
  | .error e => (.error e, st1)
  | .ok _ =>
      match loadMessagesUnlocked st1 topic with
      | .error e => (.error e, st1)
      | .ok msgs => (.ok uid, saveMessagesUnlocked st1 topic (msgs ++ [msg]))

def popFirst (st : Store) (topic : String) : Except QError (Option Msg) × Store :=
  let st1 := ensureBaseDir st
  match topicToFilename topic with
  | .error e => (.error e, st1)
  | .ok _ =>
      match loadMessagesUnlocked st1 topic with
      | .error e => (.error e, st1)
      | .ok [] => (.ok none, st1)
      | .ok (m :: rest) => (.ok (some m), saveMessagesUnlocked st1 topic rest)

def peekFirst (st : Store) (topic : String) : Except QError (Option Msg) × Store :=
  let st1 := ensureBaseDir st
  match topicToFilename topic with
  | .error e => (.error e, st1)
  | .ok _ =>
      match loadMessagesUnlocked st1 topic with
      | .error e => (.error e, st1)
      | .ok [] => (.ok none, st1)
      | .ok (m :: _) => (.ok (some m), st1)

def getByUuid (st : Store) (topic uid : String) : Except QError (Option Msg) × Store :=
  let st1 := ensureBaseDir st
  match topicToFilename topic with
  | .error e => (.error e, st1)
  | .ok _ =>
      match loadMessagesUnlocked st1 topic with
      | .error e => (.error e, st1)
      | .ok msgs => (.ok (msgs.find? (fun m => msgUuidIs m uid)), st1)

def listMessages (st : Store) (topic : String) : Except QError (List Msg) × Store :=
  let st1 := ensureBaseDir st
  match topicToFilename topic with
  | .error e => (.error e, st1)
  | .ok _ =>
      match loadMessagesUnlocked st1 topic with
      | .error e => (.error e, st1)
      | .ok msgs => (.ok msgs, st1)

def deleteByUuid (st : Store) (topic uid : String) : Except QError Bool × Store :=
  let st1 := ensureBaseDir st
  match topicToFilename topic with
  | .error e => (.error e, st1)
  | .ok _ =>
      match loadMessagesUnlocked st1 topic with
      | .error e => (.error e, st1)
      | .ok msgs =>
          let newMsgs := msgs.filter (fun m => !(msgUuidIs m uid))
          if newMsgs.length == msgs.length then (.ok false, st1)
          else (.ok true, saveMessagesUnlocked st1 topic newMsgs)

/-- The `for` loop of `replace_by_uuid`: update the first entry whose uuid
matches, leaving everything after it untouched; `none` when no entry matches. -/
def replaceFirstByUuid (uid content updated : String) : List Msg → Option (List Msg)
  | [] => none
  | m :: rest =>
      if msgUuidIs m uid then
        some (setKey (setKey m "content" (.str content)) "updated" (.str updated) :: rest)
      else
        (replaceFirstByUuid uid content updated rest).map (fun l => m :: l)

def replaceByUuid (st : Store) (updated : String) (topic uid content : String) :
    Except QError Bool × Store :=
  let st1 := ensureBaseDir st
  match topicToFilename topic with
  | .error e => (.error e, st1)
  | .ok _ =>
      match loadMessagesUnlocked st1 topic with
      | .error e => (.error e, st1)
      | .ok msgs =>
          match replaceFirstByUuid uid content updated msgs with
          | none => (.ok false, st1)
          | some newMsgs => (.ok true, saveMessagesUnlocked st1 topic newMsgs)

/-! ## Definitions derived for the claims

Sequencing helpers for the FIFO claim, and spec-side definitions used to
compare the code against the words of the specification. -/

def validMsg (m : Msg) : Bool := hasKey m "uuid" && hasKey m "content"

/-- Run one `append` per item (uuid, created-timestamp, content), in order. -/
def appendAll (st : Store) (topic : String) : List (String × String × String) → Store
  | [] => st
  | (uid, created, content) :: rest =>
      appendAll (append st uid created topic content).2 topic rest

/-- Run `popFirst` `n` times, collecting the returned messages (stopping
early only if an error occurs, which never happens in the verified runs). -/
def popN (st : Store) (topic : String) : Nat → List (Option Msg) × Store
  | 0 => ([], st)
  | n + 1 =>
      let r := popFirst st topic
      match r.1 with
      | .ok m => ((m :: (popN r.2 topic n).1), (popN r.2 topic n).2)
      | .error _ => ([], r.2)

/-- The retention condition the claim describes: a record carrying both a
`uuid` and a `content` key. -/
def isValidEntry : Json → Bool
  | .obj kvs => hasKey kvs "uuid" && hasKey kvs "content"
  | _ => false

/-- The data-file shapes the claim calls corrupt: non-whitespace text that is
not valid JSON; valid JSON whose top level is neither a record with a
`messages` list nor a bare list; or a record whose `messages` value is not a
list. -/
def corruptShape : RawFile → Bool
  | .wsOnly => false
  | .invalid => true
  | .json (.arr _) => false
  | .json (.obj kvs) =>
      match getKey kvs "messages" with
      | some (.arr _) => false
      | _ => true
  | .json _ => true

/-- The per-character allow-list exactly as the specification words it:
`A–Z a–z 0–9 . _ -`. -/
def specAllowedStrict (c : Char) : Bool :=
  let n := c.toNat
  (65 ≤ n && n ≤ 90) || (97 ≤ n && n ≤ 122) || (48 ≤ n && n ≤ 57) ||
  n == 46 || n == 95 || n == 45

/-- The allow-list of the amended claim: the above plus `'~'`. -/
def specAllowedTilde (c : Char) : Bool :=
  specAllowedStrict c || c.toNat == 126

def specQuoteCharStrict (c : Char) : List Char :=
  if specAllowedStrict c then [c]
  else (utf8Bytes c).flatMap
    (fun b => ['%', hexDigitUpper (b / 16), hexDigitUpper (b % 16)])

def specQuoteCharTilde (c : Char) : List Char :=
  if specAllowedTilde c then [c]
  else (utf8Bytes c).flatMap
    (fun b => ['%', hexDigitUpper (b / 16), hexDigitUpper (b % 16)])

/-- The encoding algorithm as the specification describes it, for an
already-trimmed non-empty topic: percent-encode over the allow-list, strip
leading/trailing dots, fall back to the 16-hex-character digest when empty,
and truncate-with-digest-suffix beyond 180 characters.  `encodeSpecStrict`
follows the written allow-list; `encodeSpecTilde` the amended one. -/
def encodeSpecStrict (topic : String) : String :=
  let safe := stripDots (topic.data.flatMap specQuoteCharStrict)
  let safe := if safe = [] then (sha256hexdigest (strUtf8 topic)).take 16 else safe
  if 180 < safe.length then
    String.mk (safe.take 150 ++ ('_' :: '_' :: (sha256hexdigest (strUtf8 topic)).take 16))
  else
    String.mk safe

def encodeSpecTilde (topic : String) : String :=
  let safe := stripDots (topic.data.flatMap specQuoteCharTilde)
  let safe := if safe = [] then (sha256hexdigest (strUtf8 topic)).take 16 else safe
  if 180 < safe.length then
    String.mk (safe.take 150 ++ ('_' :: '_' :: (sha256hexdigest (strUtf8 topic)).take 16))
  else
    String.mk safe

/-! ## Helper lemmas -/

theorem hex8_length (wd : Nat) : (hex8 wd).length = 8 := by
  simp [hex8]

theorem sha256hexdigest_length (m : List Nat) :
    (sha256hexdigest m).length = 64 := by
  simp [sha256hexdigest, sha256words, List.flatMap, hex8_length]

/-- Sanity: the explicit `safe` parameter adds nothing beyond the
never-quoted set. -/
theorem allowed_topic_chars_subset_unquoted :
    ALLOWED_TOPIC_CHARS.data.all quoteUnquoted = true := by decide

theorem getFile_setFile_self (files : List (String × RawFile)) (n : String) (v : RawFile) :
    getFile (setFile files n v) n = some v := by
  induction files with
  | nil => simp [getFile, setFile]
  | cons p rest ih =>
      obtain ⟨n', v'⟩ := p
      by_cases h : n' = n
      · simp [getFile, setFile, h]
      · simp [getFile, setFile, h, ih]

theorem getFile_setFile_ne (files : List (String × RawFile)) (n m : String) (v : RawFile)
    (h : m ≠ n) : getFile (setFile files n v) m = getFile files m := by
  have hnm : ¬ n = m := fun hh => h (Eq.symm hh)
  induction files with
  | nil => simp [getFile, setFile, hnm]
  | cons p rest ih =>
      obtain ⟨n', v'⟩ := p
      by_cases h1 : n' = n
      · subst h1
        simp [getFile, setFile, hnm]
      · by_cases h2 : n' = m <;> simp [getFile, setFile, h, h1, h2, ih]


theorem filterValidMsgs_valid (xs : List Json) :
    ∀ m ∈ filterValidMsgs xs, validMsg m = true := by
  induction xs with
  | nil => simp [filterValidMsgs]
  | cons x rest ih =>
      match x with
      | .null | .bool _ | .num _ | .str _ | .arr _ =>
          simpa [filterValidMsgs] using ih
      | .obj kvs =>
          intro m hm
          simp only [filterValidMsgs] at hm
          by_cases h : (hasKey kvs "uuid" && hasKey kvs "content") = true
          · rw [if_pos (by simpa using h)] at hm
            rcases List.mem_cons.mp hm with rfl | hm'
            · exact h
            · exact ih m hm'
          · rw [if_neg (by simpa using h)] at hm
            exact ih m hm

theorem filterValidMsgs_map_obj (msgs : List Msg)
    (h : ∀ m ∈ msgs, validMsg m = true) :
    filterValidMsgs (msgs.map Json.obj) = msgs := by
  induction msgs with
  | nil => rfl
  | cons m rest ih =>
      have hm : validMsg m = true := h m (List.mem_cons_self m rest)
      have hrest : ∀ x ∈ rest, validMsg x = true :=
        fun x hx => h x (List.mem_cons_of_mem m hx)
      simp only [List.map_cons, filterValidMsgs]
      rw [if_pos (by simpa [validMsg] using hm), ih hrest]

theorem load_ensureBaseDir (st : Store) (topic : String) :
    loadMessagesUnlocked (ensureBaseDir st) topic = loadMessagesUnlocked st topic := rfl

theorem parseMessages_ok_valid (topic path : String) (f : Option RawFile) (msgs : List Msg)
    (h : parseMessages topic path f = .ok msgs) : ∀ m ∈ msgs, validMsg m = true := by
  match f with
  | none =>
      simp only [parseMessages, Except.ok.injEq] at h
      intro m hm; rw [← h] at hm; cases hm
  | some .wsOnly =>
      simp only [parseMessages, Except.ok.injEq] at h
      intro m hm; rw [← h] at hm; cases hm
  | some .invalid => simp [parseMessages] at h
  | some (.json data) =>
      match data with
      | .null | .bool _ | .num _ | .str _ => simp [parseMessages] at h
      | .arr xs =>
          simp only [parseMessages, Except.ok.injEq] at h
          exact h ▸ filterValidMsgs_valid xs
      | .obj kvs =>
          simp only [parseMessages] at h
          rcases hk : getKey kvs "messages" with _ | j
          · rw [hk] at h; simp at h
          · rcases j with _ | b | nn | s | xs | kvs2 <;> rw [hk] at h <;> simp at h
            exact h ▸ filterValidMsgs_valid xs

theorem load_ok_valid (st : Store) (topic : String) (msgs : List Msg)
    (h : loadMessagesUnlocked st topic = .ok msgs) :
    ∀ m ∈ msgs, validMsg m = true := by
  unfold loadMessagesUnlocked at h
  match hsafe : topicToFilename topic with
  | .error e => rw [hsafe] at h; cases h
  | .ok safe =>
      rw [hsafe] at h
      exact parseMessages_ok_valid _ _ _ _ h

theorem load_ok_topicToFilename (st : Store) (topic : String) (msgs : List Msg)
    (h : loadMessagesUnlocked st topic = .ok msgs) :
    ∃ safe, topicToFilename topic = .ok safe := by
  unfold loadMessagesUnlocked at h
  match hsafe : topicToFilename topic with
  | .error e => rw [hsafe] at h; cases h
  | .ok safe => exact ⟨safe, rfl⟩

/-- Parsing the saved envelope recovers the minimally-validated entries. -/
theorem parseMessages_envelope (topic path : String) (msgs : List Msg) :
    parseMessages topic path (some (.json (envelope topic msgs)))
      = .ok (filterValidMsgs (msgs.map Json.obj)) := by
  have h1 : (("version" : String) == "messages") = false := by decide
  have h2 : (("topic" : String) == "messages") = false := by decide
  have h3 : (("messages" : String) == "messages") = true := by decide
  simp only [parseMessages, envelope, getKey, h1, h2, h3, if_false, if_true,
    Bool.false_eq_true, Bool.true_eq_false, reduceIte]

/-- Loading right after saving returns exactly the saved messages, provided
each saved message carries its `uuid` and `content` keys (which every message
that flows through the operations does). -/
theorem load_save (st : Store) (topic safe : String) (msgs : List Msg)
    (hsafe : topicToFilename topic = .ok safe)
    (hvalid : ∀ m ∈ msgs, validMsg m = true) :
    loadMessagesUnlocked (saveMessagesUnlocked st topic msgs) topic = .ok msgs := by
  unfold loadMessagesUnlocked saveMessagesUnlocked
  rw [hsafe]
  simp only [getFile_setFile_self, parseMessages_envelope,
    filterValidMsgs_map_obj msgs hvalid]

theorem saveCount_save (st : Store) (topic : String) (msgs : List Msg) :
    (saveMessagesUnlocked st topic msgs).saveCount ≤ st.saveCount + 1 := by
  unfold saveMessagesUnlocked
  match topicToFilename topic with
  | .error e => simp
  | .ok safe => simp

theorem files_save_ne (st : Store) (topic safe : String) (msgs : List Msg) (n : String)
    (hsafe : topicToFilename topic = .ok safe) (hn : n ≠ dataFileName safe) :
    getFile (saveMessagesUnlocked st topic msgs).files n = getFile st.files n := by
  unfold saveMessagesUnlocked
  rw [hsafe]
  exact getFile_setFile_ne _ _ _ _ hn

theorem validMsg_mkMsg (uid created content : String) :
    validMsg (mkMsg uid created content) = true := rfl

/-- `append` on a loadable topic returns the fresh uuid and saves the message
at the end of the queue. -/
theorem append_ok (st : Store) (topic safe uid created content : String) (msgs : List Msg)
    (hsafe : topicToFilename topic = .ok safe)
    (hload : loadMessagesUnlocked st topic = .ok msgs) :
    append st uid created topic content
      = (.ok uid,
         saveMessagesUnlocked (ensureBaseDir st) topic (msgs ++ [mkMsg uid created content])) := by
  simp only [append, hsafe, load_ensureBaseDir, hload]

theorem popFirst_cons (st : Store) (topic safe : String) (m : Msg) (rest : List Msg)
    (hsafe : topicToFilename topic = .ok safe)
    (hload : loadMessagesUnlocked st topic = .ok (m :: rest)) :
    popFirst st topic = (.ok (some m), saveMessagesUnlocked (ensureBaseDir st) topic rest) := by
  simp only [popFirst, hsafe, load_ensureBaseDir, hload]

theorem popFirst_nil (st : Store) (topic safe : String)
    (hsafe : topicToFilename topic = .ok safe)
    (hload : loadMessagesUnlocked st topic = .ok []) :
    popFirst st topic = (.ok none, ensureBaseDir st) := by
  simp only [popFirst, hsafe, load_ensureBaseDir, hload]

/-! ## C1: FIFO behaviour of a sequence of appends followed by pops -/


theorem load_appendAll (topic safe : String) (items : List (String × String × String)) :
    ∀ (st : Store) (msgs : List Msg),
      topicToFilename topic = .ok safe →
      loadMessagesUnlocked st topic = .ok msgs →
      loadMessagesUnlocked (appendAll st topic items) topic
        = .ok (msgs ++ items.map (fun i => mkMsg i.1 i.2.1 i.2.2)) := by
  induction items with
  | nil =>
      intro st msgs hsafe hload
      simpa [appendAll] using hload
  | cons i rest ih =>
      intro st msgs hsafe hload
      obtain ⟨uid, created, content⟩ := i
      simp only [appendAll]
      have h2 : (append st uid created topic content).2
          = saveMessagesUnlocked (ensureBaseDir st) topic
              (msgs ++ [mkMsg uid created content]) := by
        rw [append_ok st topic safe uid created content msgs hsafe hload]
      rw [h2]
      have hvalid : ∀ m ∈ msgs ++ [mkMsg uid created content], validMsg m = true := by
        intro m hm
        rcases List.mem_append.mp hm with hm' | hm'
        · exact load_ok_valid st topic msgs hload m hm'
        · simp at hm'; subst hm'; rfl
      have hload' := load_save (ensureBaseDir st) topic safe _ hsafe hvalid
      have hrec := ih _ _ hsafe hload'
      simpa [List.append_assoc] using hrec

theorem popN_succ (st : Store) (topic : String) (n : Nat) (m : Option Msg) (st' : Store)
    (h : popFirst st topic = (.ok m, st')) :
    (popN st topic (n + 1)).1 = m :: (popN st' topic n).1 := by
  simp only [popN, h]

theorem popN_drain (topic safe : String) :
    ∀ (msgs : List Msg) (st : Store),
      topicToFilename topic = .ok safe →
      loadMessagesUnlocked st topic = .ok msgs →
      (popN st topic (msgs.length + 1)).1 = msgs.map some ++ [none] := by
  intro msgs
  induction msgs with
  | nil =>
      intro st hsafe hload
      rw [List.length_nil, popN_succ st topic 0 none _ (popFirst_nil st topic safe hsafe hload)]
      rfl
  | cons m rest ih =>
      intro st hsafe hload
      have hpop := popFirst_cons st topic safe m rest hsafe hload
      have hvalid : ∀ x ∈ rest, validMsg x = true :=
        fun x hx => load_ok_valid st topic (m :: rest) hload x (List.mem_cons_of_mem m hx)
      have hload' := load_save (ensureBaseDir st) topic safe rest hsafe hvalid
      rw [List.length_cons, popN_succ st topic (rest.length + 1) (some m) _ hpop,
        ih _ hsafe hload']
      simp

/-- C1.  Starting from an empty queue, appending `N` messages (with distinct
contents) and then popping `N + 1` times yields exactly the appended messages
in append order followed by the "no message" result `none`. -/
theorem fifo_append_pop (st : Store) (topic safe : String)
    (items : List (String × String × String))
    (hsafe : topicToFilename topic = .ok safe)
    (hempty : loadMessagesUnlocked st topic = .ok [])
    (_hdistinct : (items.map (fun i => i.2.2)).Nodup) :
    (popN (appendAll st topic items) topic (items.length + 1)).1
      = items.map (fun i => some (mkMsg i.1 i.2.1 i.2.2)) ++ [none] := by
  have hload := load_appendAll topic safe items st [] hsafe hempty
  simp only [List.nil_append] at hload
  have hmain := popN_drain topic safe _ _ hsafe hload
  simpa [List.map_map, Function.comp] using hmain

/-- Witness for C1 at a concrete two-element run. -/
theorem fifo_append_pop_witness :
    (popN (appendAll ⟨"q", [], false, 0⟩ "t" [("u1", "t1", "a"), ("u2", "t2", "b")]) "t"
        ([("u1", "t1", "a"), ("u2", "t2", "b")].length + 1)).1
      = [("u1", "t1", "a"), ("u2", "t2", "b")].map
          (fun i => some (mkMsg i.1 i.2.1 i.2.2)) ++ [none] :=
  fifo_append_pop ⟨"q", [], false, 0⟩ "t" "t" [("u1", "t1", "a"), ("u2", "t2", "b")]
    rfl rfl (by decide)

/-! ## C2: append / getByUuid / replaceByUuid round-trip -/

theorem find?_append_all_false {α : Type} (p : α → Bool) (l1 l2 : List α)
    (h : ∀ x ∈ l1, p x = false) : (l1 ++ l2).find? p = l2.find? p := by
  induction l1 with
  | nil => rfl
  | cons x rest ih =>
      have hx : p x = false := h x (List.mem_cons_self x rest)
      simp only [List.cons_append, List.find?, hx]
      exact ih (fun y hy => h y (List.mem_cons_of_mem x hy))

theorem getByUuid_eq (st : Store) (topic safe uid : String) (msgs : List Msg)
    (hsafe : topicToFilename topic = .ok safe)
    (hload : loadMessagesUnlocked st topic = .ok msgs) :
    getByUuid st topic uid
      = (.ok (msgs.find? (fun m => msgUuidIs m uid)), ensureBaseDir st) := by
  simp only [getByUuid, hsafe, load_ensureBaseDir, hload]

theorem msgUuidIs_mkMsg (uid created content : String) :
    msgUuidIs (mkMsg uid created content) uid = true := by
  simp [msgUuidIs, mkMsg, getKey, jsonEqStr]

theorem getKey_setKey_self (m : Msg) (k : String) (v : Json) :
    getKey (setKey m k v) k = some v := by
  induction m with
  | nil => simp [getKey, setKey]
  | cons p rest ih =>
      obtain ⟨k', v'⟩ := p
      by_cases h : k' = k
      · simp [getKey, setKey, h]
      · simp [getKey, setKey, h, ih]

theorem getKey_setKey_ne (m : Msg) (k k2 : String) (v : Json) (h : k2 ≠ k) :
    getKey (setKey m k v) k2 = getKey m k2 := by
  have hkk : ¬ k = k2 := fun hh => h (Eq.symm hh)
  induction m with
  | nil => simp [getKey, setKey, hkk]
  | cons p rest ih =>
      obtain ⟨k', v'⟩ := p
      by_cases h1 : k' = k
      · subst h1
        simp [getKey, setKey, hkk]
      · by_cases h2 : k' = k2 <;> simp [getKey, setKey, h, h1, h2, ih]

theorem hasKey_setKey_self (m : Msg) (k : String) (v : Json) :
    hasKey (setKey m k v) k = true := by
  simp [hasKey, getKey_setKey_self]

theorem hasKey_setKey_ne (m : Msg) (k k2 : String) (v : Json) (h : k2 ≠ k) :
    hasKey (setKey m k v) k2 = hasKey m k2 := by
  simp [hasKey, getKey_setKey_ne m k k2 v h]

theorem validMsg_replaced (m : Msg) (content updated : String) (hm : validMsg m = true) :
    validMsg (setKey (setKey m "content" (.str content)) "updated" (.str updated)) = true := by
  simp only [validMsg, Bool.and_eq_true] at hm ⊢
  refine ⟨?_, ?_⟩
  · rw [hasKey_setKey_ne _ _ _ _ (by decide), hasKey_setKey_ne _ _ _ _ (by decide)]
    exact hm.1
  · rw [hasKey_setKey_ne _ _ _ _ (by decide)]
    exact hasKey_setKey_self _ _ _

theorem replaceFirstByUuid_append (uid content updated : String) (pre : List Msg)
    (m : Msg) (post : List Msg)
    (hpre : ∀ x ∈ pre, msgUuidIs x uid = false) (hm : msgUuidIs m uid = true) :
    replaceFirstByUuid uid content updated (pre ++ m :: post)
      = some (pre ++
          (setKey (setKey m "content" (.str content)) "updated" (.str updated)) :: post) := by
  induction pre with
  | nil => simp [replaceFirstByUuid, hm]
  | cons x rest ih =>
      have hx : msgUuidIs x uid = false := hpre x (List.mem_cons_self x rest)
      have ih' := ih (fun y hy => hpre y (List.mem_cons_of_mem x hy))
      simp [replaceFirstByUuid, hx, ih']

theorem replaceFirstByUuid_none (uid content updated : String) (msgs : List Msg)
    (h : ∀ x ∈ msgs, msgUuidIs x uid = false) :
    replaceFirstByUuid uid content updated msgs = none := by
  induction msgs with
  | nil => rfl
  | cons x rest ih =>
      have hx : msgUuidIs x uid = false := h x (List.mem_cons_self x rest)
      have ih' := ih (fun y hy => h y (List.mem_cons_of_mem x hy))
      simp [replaceFirstByUuid, hx, ih']

theorem replaceByUuid_found (st : Store) (topic safe uid content updated : String)
    (msgs newMsgs : List Msg)
    (hsafe : topicToFilename topic = .ok safe)
    (hload : loadMessagesUnlocked st topic = .ok msgs)
    (hrepl : replaceFirstByUuid uid content updated msgs = some newMsgs) :
    replaceByUuid st updated topic uid content
      = (.ok true, saveMessagesUnlocked (ensureBaseDir st) topic newMsgs) := by
  simp only [replaceByUuid, hsafe, load_ensureBaseDir, hload, hrepl]

/-- C2.  Appending content `content` under a fresh uuid `uid` makes
`getByUuid` return exactly the new message (content `content`, its original
`created` stamp, and no `updated` key); replacing it with `c2` then returns
`true` and makes `getByUuid` return the message with content `c2`, an
`updated` key, and the original `created` value unchanged. -/
theorem append_get_replace_roundtrip (st : Store)
    (topic safe uid created content c2 upd : String) (msgs : List Msg)
    (hsafe : topicToFilename topic = .ok safe)
    (hload : loadMessagesUnlocked st topic = .ok msgs)
    (hfresh : ∀ m ∈ msgs, msgUuidIs m uid = false) :
    (append st uid created topic content).1 = .ok uid
    ∧ (getByUuid (append st uid created topic content).2 topic uid).1
        = .ok (some (mkMsg uid created content))
    ∧ getKey (mkMsg uid created content) "content" = some (.str content)
    ∧ getKey (mkMsg uid created content) "updated" = none
    ∧ getKey (mkMsg uid created content) "created" = some (.str created)
    ∧ (replaceByUuid (append st uid created topic content).2 upd topic uid c2).1 = .ok true
    ∧ (getByUuid
          (replaceByUuid (append st uid created topic content).2 upd topic uid c2).2
          topic uid).1
        = .ok (some (setKey (setKey (mkMsg uid created content) "content" (.str c2))
            "updated" (.str upd)))
    ∧ getKey (setKey (setKey (mkMsg uid created content) "content" (.str c2))
          "updated" (.str upd)) "content" = some (.str c2)
    ∧ getKey (setKey (setKey (mkMsg uid created content) "content" (.str c2))
          "updated" (.str upd)) "updated" = some (.str upd)
    ∧ getKey (setKey (setKey (mkMsg uid created content) "content" (.str c2))
          "updated" (.str upd)) "created" = some (.str created) := by
  have happ := append_ok st topic safe uid created content msgs hsafe hload
  have h2 : (append st uid created topic content).2
      = saveMessagesUnlocked (ensureBaseDir st) topic (msgs ++ [mkMsg uid created content]) := by
    rw [happ]
  have hvalid1 : ∀ m ∈ msgs ++ [mkMsg uid created content], validMsg m = true := by
    intro m hm
    rcases List.mem_append.mp hm with hm' | hm'
    · exact load_ok_valid st topic msgs hload m hm'
    · simp at hm'; subst hm'; rfl
  have hload2 : loadMessagesUnlocked (append st uid created topic content).2 topic
      = .ok (msgs ++ [mkMsg uid created content]) := by
    rw [h2]; exact load_save _ topic safe _ hsafe hvalid1
  have hfind1 : (msgs ++ [mkMsg uid created content]).find? (fun m => msgUuidIs m uid)
      = some (mkMsg uid created content) := by
    rw [find?_append_all_false _ msgs _ hfresh]
    simp [List.find?, msgUuidIs_mkMsg]
  have hrepl : replaceFirstByUuid uid c2 upd (msgs ++ [mkMsg uid created content])
      = some (msgs ++
          (setKey (setKey (mkMsg uid created content) "content" (.str c2))
            "updated" (.str upd)) :: []) :=
    replaceFirstByUuid_append uid c2 upd msgs _ [] hfresh (msgUuidIs_mkMsg uid created content)
  have hreplaced := replaceByUuid_found (append st uid created topic content).2
    topic safe uid c2 upd _ _ hsafe hload2 hrepl
  have h3 : (replaceByUuid (append st uid created topic content).2 upd topic uid c2).2
      = saveMessagesUnlocked (ensureBaseDir (append st uid created topic content).2) topic
          (msgs ++
            (setKey (setKey (mkMsg uid created content) "content" (.str c2))
              "updated" (.str upd)) :: []) := by
    rw [hreplaced]
  have hvalid3 : ∀ m ∈ msgs ++
      (setKey (setKey (mkMsg uid created content) "content" (.str c2))
        "updated" (.str upd)) :: [], validMsg m = true := by
    intro m hm
    rcases List.mem_append.mp hm with hm' | hm'
    · exact load_ok_valid st topic msgs hload m hm'
    · simp at hm'; subst hm'
      exact validMsg_replaced _ c2 upd (validMsg_mkMsg uid created content)
  have hload3 : loadMessagesUnlocked
      (replaceByUuid (append st uid created topic content).2 upd topic uid c2).2 topic
      = .ok (msgs ++
          (setKey (setKey (mkMsg uid created content) "content" (.str c2))
            "updated" (.str upd)) :: []) := by
    rw [h3]; exact load_save _ topic safe _ hsafe hvalid3
  have hUuidUpd : msgUuidIs
      (setKey (setKey (mkMsg uid created content) "content" (.str c2))
        "updated" (.str upd)) uid = true := by
    simp [msgUuidIs, mkMsg, setKey, getKey, jsonEqStr]
  have hfind3 : (msgs ++
      (setKey (setKey (mkMsg uid created content) "content" (.str c2))
        "updated" (.str upd)) :: []).find? (fun m => msgUuidIs m uid)
      = some (setKey (setKey (mkMsg uid created content) "content" (.str c2))
          "updated" (.str upd)) := by
    rw [find?_append_all_false _ msgs _ hfresh]
    simp [List.find?, hUuidUpd]
  refine ⟨by rw [happ], ?_, rfl, rfl, rfl, by rw [hreplaced], ?_, rfl, rfl, rfl⟩
  · rw [getByUuid_eq _ topic safe uid _ hsafe hload2, hfind1]
  · rw [getByUuid_eq _ topic safe uid _ hsafe hload3, hfind3]

/-- Witness for C2 at a concrete input (empty queue, topic `"t"`). -/
theorem append_get_replace_roundtrip_witness :
    (append ⟨"q", [], false, 0⟩ "u" "2024-01-01T00:00:00+00:00" "t" "hello").1 = .ok "u"
    ∧ (getByUuid (append ⟨"q", [], false, 0⟩ "u" "2024-01-01T00:00:00+00:00" "t" "hello").2
        "t" "u").1 = .ok (some (mkMsg "u" "2024-01-01T00:00:00+00:00" "hello"))
    ∧ getKey (mkMsg "u" "2024-01-01T00:00:00+00:00" "hello") "content"
        = some (.str "hello")
    ∧ getKey (mkMsg "u" "2024-01-01T00:00:00+00:00" "hello") "updated" = none
    ∧ getKey (mkMsg "u" "2024-01-01T00:00:00+00:00" "hello") "created"
        = some (.str "2024-01-01T00:00:00+00:00")
    ∧ (replaceByUuid (append ⟨"q", [], false, 0⟩ "u" "2024-01-01T00:00:00+00:00" "t" "hello").2
        "2024-01-02T00:00:00+00:00" "t" "u" "bye").1 = .ok true
    ∧ (getByUuid
        (replaceByUuid (append ⟨"q", [], false, 0⟩ "u" "2024-01-01T00:00:00+00:00" "t" "hello").2
          "2024-01-02T00:00:00+00:00" "t" "u" "bye").2 "t" "u").1
        = .ok (some (setKey (setKey (mkMsg "u" "2024-01-01T00:00:00+00:00" "hello")
            "content" (.str "bye")) "updated" (.str "2024-01-02T00:00:00+00:00")))
    ∧ getKey (setKey (setKey (mkMsg "u" "2024-01-01T00:00:00+00:00" "hello")
          "content" (.str "bye")) "updated" (.str "2024-01-02T00:00:00+00:00")) "content"
        = some (.str "bye")
    ∧ getKey (setKey (setKey (mkMsg "u" "2024-01-01T00:00:00+00:00" "hello")
          "content" (.str "bye")) "updated" (.str "2024-01-02T00:00:00+00:00")) "updated"
        = some (.str "2024-01-02T00:00:00+00:00")
    ∧ getKey (setKey (setKey (mkMsg "u" "2024-01-01T00:00:00+00:00" "hello")
          "content" (.str "bye")) "updated" (.str "2024-01-02T00:00:00+00:00")) "created"
        = some (.str "2024-01-01T00:00:00+00:00") :=
  append_get_replace_roundtrip ⟨"q", [], false, 0⟩ "t" "t" "u"
    "2024-01-01T00:00:00+00:00" "hello" "bye" "2024-01-02T00:00:00+00:00" []
    rfl rfl (fun m hm => absurd hm (List.not_mem_nil m))

/-! ## C6: the tolerant per-entry filter during load -/


theorem filterValidMsgs_eq_filter (xs : List Json) :
    (filterValidMsgs xs).map Json.obj = xs.filter isValidEntry := by
  induction xs with
  | nil => rfl
  | cons x rest ih =>
      match x with
      | .null | .bool _ | .num _ | .str _ | .arr _ =>
          simpa [filterValidMsgs, List.filter, isValidEntry] using ih
      | .obj kvs =>
          by_cases h : (hasKey kvs "uuid" && hasKey kvs "content") = true
          · simp [filterValidMsgs, List.filter, isValidEntry, h, ih]
          · simp [filterValidMsgs, List.filter, isValidEntry,
              Bool.not_eq_true _ ▸ h, ih]

/-- C6.  During load, an element of the parsed message list is retained if
and only if it is a record with both a `uuid` and a `content` key; every
other element is silently discarded, and the retained elements are kept
verbatim (so all their extra fields survive unmodified): the loaded list,
re-wrapped as JSON objects, is exactly the filter of the input list. -/
theorem load_keeps_exactly_valid_entries (topic path : String) (xs : List Json) :
    parseMessages topic path (some (.json (.arr xs))) = .ok (filterValidMsgs xs)
    ∧ parseMessages topic path (some (.json (.obj [("messages", .arr xs)])))
        = .ok (filterValidMsgs xs)
    ∧ (filterValidMsgs xs).map Json.obj = xs.filter isValidEntry := by
  refine ⟨rfl, rfl, filterValidMsgs_eq_filter xs⟩

/-! ## C4: corrupt file shapes raise the corruption error class -/


theorem parseMessages_corrupt (topic path : String) (f : RawFile)
    (hbad : corruptShape f = true) :
    ∃ m, parseMessages topic path (some f) = .error (.runtimeError m) := by
  match f with
  | .wsOnly => simp [corruptShape] at hbad
  | .invalid => exact ⟨_, rfl⟩
  | .json .null | .json (.bool _) | .json (.num _) | .json (.str _) => exact ⟨_, rfl⟩
  | .json (.arr _) => simp [corruptShape] at hbad
  | .json (.obj kvs) =>
      simp only [parseMessages]
      rcases hk : getKey kvs "messages" with _ | j
      · exact ⟨_, rfl⟩
      · rcases j with _ | b | nn | s | xs | kvs2
        case arr => simp [corruptShape, hk] at hbad
        all_goals exact ⟨_, rfl⟩

theorem load_corrupt (st : Store) (topic safe : String) (f : RawFile)
    (hsafe : topicToFilename topic = .ok safe)
    (hfile : getFile st.files (dataFileName safe) = some f)
    (hbad : corruptShape f = true) :
    ∃ m, loadMessagesUnlocked st topic = .error (.runtimeError m) := by
  obtain ⟨m, hm⟩ := parseMessages_corrupt topic (dataFilePath st safe) f hbad
  refine ⟨m, ?_⟩
  unfold loadMessagesUnlocked
  simp only [hsafe]
  rw [hfile]
  exact hm

theorem append_load_error (st : Store) (topic uid created content : String) (e : QError)
    (hload : loadMessagesUnlocked st topic = .error e) :
    append st uid created topic content = (.error e, ensureBaseDir st) := by
  rcases hsafe : topicToFilename topic with e2 | safe
  · unfold loadMessagesUnlocked at hload
    simp only [hsafe, Except.error.injEq] at hload
    subst hload
    simp [append, hsafe]
  · simp only [append, hsafe, load_ensureBaseDir, hload]

theorem popFirst_load_error (st : Store) (topic : String) (e : QError)
    (hload : loadMessagesUnlocked st topic = .error e) :
    popFirst st topic = (.error e, ensureBaseDir st) := by
  rcases hsafe : topicToFilename topic with e2 | safe
  · unfold loadMessagesUnlocked at hload
    simp only [hsafe, Except.error.injEq] at hload
    subst hload
    simp [popFirst, hsafe]
  · simp only [popFirst, hsafe, load_ensureBaseDir, hload]

theorem peekFirst_load_error (st : Store) (topic : String) (e : QError)
    (hload : loadMessagesUnlocked st topic = .error e) :
    peekFirst st topic = (.error e, ensureBaseDir st) := by
  rcases hsafe : topicToFilename topic with e2 | safe
  · unfold loadMessagesUnlocked at hload
    simp only [hsafe, Except.error.injEq] at hload
    subst hload
    simp [peekFirst, hsafe]
  · simp only [peekFirst, hsafe, load_ensureBaseDir, hload]

theorem getByUuid_load_error (st : Store) (topic uid : String) (e : QError)
    (hload : loadMessagesUnlocked st topic = .error e) :
    getByUuid st topic uid = (.error e, ensureBaseDir st) := by
  rcases hsafe : topicToFilename topic with e2 | safe
  · unfold loadMessagesUnlocked at hload
    simp only [hsafe, Except.error.injEq] at hload
    subst hload
    simp [getByUuid, hsafe]
  · simp only [getByUuid, hsafe, load_ensureBaseDir, hload]

theorem listMessages_load_error (st : Store) (topic : String) (e : QError)
    (hload : loadMessagesUnlocked st topic = .error e) :
    listMessages st topic = (.error e, ensureBaseDir st) := by
  rcases hsafe : topicToFilename topic with e2 | safe
  · unfold loadMessagesUnlocked at hload
    simp only [hsafe, Except.error.injEq] at hload
    subst hload
    simp [listMessages, hsafe]
  · simp only [listMessages, hsafe, load_ensureBaseDir, hload]

theorem deleteByUuid_load_error (st : Store) (topic uid : String) (e : QError)
    (hload : loadMessagesUnlocked st topic = .error e) :
    deleteByUuid st topic uid = (.error e, ensureBaseDir st) := by
  rcases hsafe : topicToFilename topic with e2 | safe
  · unfold loadMessagesUnlocked at hload
    simp only [hsafe, Except.error.injEq] at hload
    subst hload
    simp [deleteByUuid, hsafe]
  · simp only [deleteByUuid, hsafe, load_ensureBaseDir, hload]

theorem replaceByUuid_load_error (st : Store) (topic uid content upd : String) (e : QError)
    (hload : loadMessagesUnlocked st topic = .error e) :
    replaceByUuid st upd topic uid content = (.error e, ensureBaseDir st) := by
  rcases hsafe : topicToFilename topic with e2 | safe
  · unfold loadMessagesUnlocked at hload
    simp only [hsafe, Except.error.injEq] at hload
    subst hload
    simp [replaceByUuid, hsafe]
  · simp only [replaceByUuid, hsafe, load_ensureBaseDir, hload]

/-- C4.  When the topic data file has any of the corrupt shapes, every one
of the seven operations fails with the `RuntimeError` corruption class (so
none of them returns an empty-queue result; in this model the corruption
class is exactly `QError.runtimeError`, the embedding of Python
`RuntimeError` — the code raises no `TypeError`). -/
theorem corrupt_file_every_op_errors (st : Store)
    (topic safe uid created content upd : String) (f : RawFile)
    (hsafe : topicToFilename topic = .ok safe)
    (hfile : getFile st.files (dataFileName safe) = some f)
    (hbad : corruptShape f = true) :
    ∃ m,
      append st uid created topic content = (.error (.runtimeError m), ensureBaseDir st)
      ∧ popFirst st topic = (.error (.runtimeError m), ensureBaseDir st)
      ∧ peekFirst st topic = (.error (.runtimeError m), ensureBaseDir st)
      ∧ getByUuid st topic uid = (.error (.runtimeError m), ensureBaseDir st)
      ∧ listMessages st topic = (.error (.runtimeError m), ensureBaseDir st)
      ∧ deleteByUuid st topic uid = (.error (.runtimeError m), ensureBaseDir st)
      ∧ replaceByUuid st upd topic uid content = (.error (.runtimeError m), ensureBaseDir st) := by
  obtain ⟨m, hload⟩ := load_corrupt st topic safe f hsafe hfile hbad
  exact ⟨m,
    append_load_error st topic uid created content _ hload,
    popFirst_load_error st topic _ hload,
    peekFirst_load_error st topic _ hload,
    getByUuid_load_error st topic uid _ hload,
    listMessages_load_error st topic _ hload,
    deleteByUuid_load_error st topic uid _ hload,
    replaceByUuid_load_error st topic uid content upd _ hload⟩

/-- Witness for C4: a topic file holding unparseable text. -/
theorem corrupt_file_every_op_errors_witness :
    ∃ m,
      append ⟨"q", [("t.json", RawFile.invalid)], true, 0⟩ "u" "c" "t" "x"
          = (.error (.runtimeError m),
             ensureBaseDir ⟨"q", [("t.json", RawFile.invalid)], true, 0⟩)
      ∧ popFirst ⟨"q", [("t.json", RawFile.invalid)], true, 0⟩ "t"
          = (.error (.runtimeError m),
             ensureBaseDir ⟨"q", [("t.json", RawFile.invalid)], true, 0⟩)
      ∧ peekFirst ⟨"q", [("t.json", RawFile.invalid)], true, 0⟩ "t"
          = (.error (.runtimeError m),
             ensureBaseDir ⟨"q", [("t.json", RawFile.invalid)], true, 0⟩)
      ∧ getByUuid ⟨"q", [("t.json", RawFile.invalid)], true, 0⟩ "t" "u"
          = (.error (.runtimeError m),
             ensureBaseDir ⟨"q", [("t.json", RawFile.invalid)], true, 0⟩)
      ∧ listMessages ⟨"q", [("t.json", RawFile.invalid)], true, 0⟩ "t"
          = (.error (.runtimeError m),
             ensureBaseDir ⟨"q", [("t.json", RawFile.invalid)], true, 0⟩)
      ∧ deleteByUuid ⟨"q", [("t.json", RawFile.invalid)], true, 0⟩ "t" "u"
          = (.error (.runtimeError m),
             ensureBaseDir ⟨"q", [("t.json", RawFile.invalid)], true, 0⟩)
      ∧ replaceByUuid ⟨"q", [("t.json", RawFile.invalid)], true, 0⟩ "d" "t" "u" "x"
          = (.error (.runtimeError m),
             ensureBaseDir ⟨"q", [("t.json", RawFile.invalid)], true, 0⟩) :=
  corrupt_file_every_op_errors ⟨"q", [("t.json", RawFile.invalid)], true, 0⟩
    "t" "t" "u" "c" "x" "d" RawFile.invalid rfl rfl rfl

/-! ## C10: a failing load writes nothing -/

theorem peekFirst_ok (st : Store) (topic safe : String) (msgs : List Msg)
    (hsafe : topicToFilename topic = .ok safe)
    (hload : loadMessagesUnlocked st topic = .ok msgs) :
    peekFirst st topic = (.ok msgs.head?, ensureBaseDir st) := by
  rcases msgs with _ | ⟨m, rest⟩ <;>
    simp only [peekFirst, hsafe, load_ensureBaseDir, hload, List.head?]

theorem listMessages_ok (st : Store) (topic safe : String) (msgs : List Msg)
    (hsafe : topicToFilename topic = .ok safe)
    (hload : loadMessagesUnlocked st topic = .ok msgs) :
    listMessages st topic = (.ok msgs, ensureBaseDir st) := by
  simp only [listMessages, hsafe, load_ensureBaseDir, hload]

theorem append_error_state (st : Store) (topic uid created content : String) (e : QError)
    (h : (append st uid created topic content).1 = .error e) :
    append st uid created topic content = (.error e, ensureBaseDir st) := by
  rcases hload : loadMessagesUnlocked st topic with e1 | msgs
  · rw [append_load_error st topic uid created content e1 hload] at h ⊢
    simp only [Except.error.injEq] at h
    rw [h]
  · obtain ⟨safe, hsafe⟩ := load_ok_topicToFilename st topic msgs hload
    rw [append_ok st topic safe uid created content msgs hsafe hload] at h
    simp at h

theorem popFirst_error_state (st : Store) (topic : String) (e : QError)
    (h : (popFirst st topic).1 = .error e) :
    popFirst st topic = (.error e, ensureBaseDir st) := by
  rcases hload : loadMessagesUnlocked st topic with e1 | msgs
  · rw [popFirst_load_error st topic e1 hload] at h ⊢
    simp only [Except.error.injEq] at h
    rw [h]
  · obtain ⟨safe, hsafe⟩ := load_ok_topicToFilename st topic msgs hload
    rcases msgs with _ | ⟨m, rest⟩
    · rw [popFirst_nil st topic safe hsafe hload] at h
      simp at h
    · rw [popFirst_cons st topic safe m rest hsafe hload] at h
      simp at h

theorem peekFirst_error_state (st : Store) (topic : String) (e : QError)
    (h : (peekFirst st topic).1 = .error e) :
    peekFirst st topic = (.error e, ensureBaseDir st) := by
  rcases hload : loadMessagesUnlocked st topic with e1 | msgs
  · rw [peekFirst_load_error st topic e1 hload] at h ⊢
    simp only [Except.error.injEq] at h
    rw [h]
  · obtain ⟨safe, hsafe⟩ := load_ok_topicToFilename st topic msgs hload
    rw [peekFirst_ok st topic safe msgs hsafe hload] at h
    simp at h

theorem getByUuid_error_state (st : Store) (topic uid : String) (e : QError)
    (h : (getByUuid st topic uid).1 = .error e) :
    getByUuid st topic uid = (.error e, ensureBaseDir st) := by
  rcases hload : loadMessagesUnlocked st topic with e1 | msgs
  · rw [getByUuid_load_error st topic uid e1 hload] at h ⊢
    simp only [Except.error.injEq] at h
    rw [h]
  · obtain ⟨safe, hsafe⟩ := load_ok_topicToFilename st topic msgs hload
    rw [getByUuid_eq st topic safe uid msgs hsafe hload] at h
    simp at h

theorem listMessages_error_state (st : Store) (topic : String) (e : QError)
    (h : (listMessages st topic).1 = .error e) :
    listMessages st topic = (.error e, ensureBaseDir st) := by
  rcases hload : loadMessagesUnlocked st topic with e1 | msgs
  · rw [listMessages_load_error st topic e1 hload] at h ⊢
    simp only [Except.error.injEq] at h
    rw [h]
  · obtain ⟨safe, hsafe⟩ := load_ok_topicToFilename st topic msgs hload
    rw [listMessages_ok st topic safe msgs hsafe hload] at h
    simp at h

theorem deleteByUuid_error_state (st : Store) (topic uid : String) (e : QError)
    (h : (deleteByUuid st topic uid).1 = .error e) :
    deleteByUuid st topic uid = (.error e, ensureBaseDir st) := by
  rcases hload : loadMessagesUnlocked st topic with e1 | msgs
  · rw [deleteByUuid_load_error st topic uid e1 hload] at h ⊢
    simp only [Except.error.injEq] at h
    rw [h]
  · obtain ⟨safe, hsafe⟩ := load_ok_topicToFilename st topic msgs hload
    by_cases hlen : (msgs.filter (fun m => !(msgUuidIs m uid))).length = msgs.length <;>
      simp [deleteByUuid, hsafe, load_ensureBaseDir, hload, hlen] at h

theorem replaceByUuid_error_state (st : Store) (topic uid content upd : String) (e : QError)
    (h : (replaceByUuid st upd topic uid content).1 = .error e) :
    replaceByUuid st upd topic uid content = (.error e, ensureBaseDir st) := by
  rcases hload : loadMessagesUnlocked st topic with e1 | msgs
  · rw [replaceByUuid_load_error st topic uid content upd e1 hload] at h ⊢
    simp only [Except.error.injEq] at h
    rw [h]
  · obtain ⟨safe, hsafe⟩ := load_ok_topicToFilename st topic msgs hload
    rcases hrepl : replaceFirstByUuid uid content upd msgs with _ | newMsgs <;>
      simp [replaceByUuid, hsafe, load_ensureBaseDir, hload, hrepl] at h

/-- C10.  Whenever an operation fails (in particular with a corruption
error from load), the data files and the save count are exactly those of the
initial state: the save step runs only after a successful load, so a failing
load aborts the operation with no file replacement. -/
theorem error_leaves_files_unchanged (st : Store)
    (topic uid created content upd : String) :
    (∀ e, (append st uid created topic content).1 = .error e →
        (append st uid created topic content).2.files = st.files
        ∧ (append st uid created topic content).2.saveCount = st.saveCount)
    ∧ (∀ e, (popFirst st topic).1 = .error e →
        (popFirst st topic).2.files = st.files
        ∧ (popFirst st topic).2.saveCount = st.saveCount)
    ∧ (∀ e, (peekFirst st topic).1 = .error e →
        (peekFirst st topic).2.files = st.files
        ∧ (peekFirst st topic).2.saveCount = st.saveCount)
    ∧ (∀ e, (getByUuid st topic uid).1 = .error e →
        (getByUuid st topic uid).2.files = st.files
        ∧ (getByUuid st topic uid).2.saveCount = st.saveCount)
    ∧ (∀ e, (listMessages st topic).1 = .error e →
        (listMessages st topic).2.files = st.files
        ∧ (listMessages st topic).2.saveCount = st.saveCount)
    ∧ (∀ e, (deleteByUuid st topic uid).1 = .error e →
        (deleteByUuid st topic uid).2.files = st.files
        ∧ (deleteByUuid st topic uid).2.saveCount = st.saveCount)
    ∧ (∀ e, (replaceByUuid st upd topic uid content).1 = .error e →
        (replaceByUuid st upd topic uid content).2.files = st.files
        ∧ (replaceByUuid st upd topic uid content).2.saveCount = st.saveCount) := by
  refine ⟨?_, ?_, ?_, ?_, ?_, ?_, ?_⟩ <;> intro e h
  · rw [append_error_state st topic uid created content e h]
    exact ⟨rfl, rfl⟩
  · rw [popFirst_error_state st topic e h]
    exact ⟨rfl, rfl⟩
  · rw [peekFirst_error_state st topic e h]
    exact ⟨rfl, rfl⟩
  · rw [getByUuid_error_state st topic uid e h]
    exact ⟨rfl, rfl⟩
  · rw [listMessages_error_state st topic e h]
    exact ⟨rfl, rfl⟩
  · rw [deleteByUuid_error_state st topic uid e h]
    exact ⟨rfl, rfl⟩
  · rw [replaceByUuid_error_state st topic uid content upd e h]
    exact ⟨rfl, rfl⟩

/-- Witness for C10: a corrupt file makes `popFirst` fail and leaves the
file map and save count untouched. -/
theorem error_leaves_files_unchanged_witness :
    (popFirst ⟨"q", [("t.json", RawFile.invalid)], true, 0⟩ "t").2.files
        = [("t.json", RawFile.invalid)]
    ∧ (popFirst ⟨"q", [("t.json", RawFile.invalid)], true, 0⟩ "t").2.saveCount = 0 :=
  (error_leaves_files_unchanged ⟨"q", [("t.json", RawFile.invalid)], true, 0⟩
      "t" "u" "c" "x" "d").2.1
    (.runtimeError (corruptMsg "t" "q/t.json")) rfl

/-! ## C7: shared operations never write; exclusive ones replace at most once -/

theorem peekFirst_state (st : Store) (topic : String) :
    (peekFirst st topic).2 = ensureBaseDir st := by
  rcases hload : loadMessagesUnlocked st topic with e1 | msgs
  · rw [peekFirst_load_error st topic e1 hload]
  · obtain ⟨safe, hsafe⟩ := load_ok_topicToFilename st topic msgs hload
    rw [peekFirst_ok st topic safe msgs hsafe hload]

theorem getByUuid_state (st : Store) (topic uid : String) :
    (getByUuid st topic uid).2 = ensureBaseDir st := by
  rcases hload : loadMessagesUnlocked st topic with e1 | msgs
  · rw [getByUuid_load_error st topic uid e1 hload]
  · obtain ⟨safe, hsafe⟩ := load_ok_topicToFilename st topic msgs hload
    rw [getByUuid_eq st topic safe uid msgs hsafe hload]

theorem listMessages_state (st : Store) (topic : String) :
    (listMessages st topic).2 = ensureBaseDir st := by
  rcases hload : loadMessagesUnlocked st topic with e1 | msgs
  · rw [listMessages_load_error st topic e1 hload]
  · obtain ⟨safe, hsafe⟩ := load_ok_topicToFilename st topic msgs hload
    rw [listMessages_ok st topic safe msgs hsafe hload]

theorem deleteByUuid_nomatch (st : Store) (topic safe uid : String) (msgs : List Msg)
    (hsafe : topicToFilename topic = .ok safe)
    (hload : loadMessagesUnlocked st topic = .ok msgs)
    (hnone : ∀ m ∈ msgs, msgUuidIs m uid = false) :
    deleteByUuid st topic uid = (.ok false, ensureBaseDir st) := by
  have hfilter : msgs.filter (fun m => !(msgUuidIs m uid)) = msgs :=
    List.filter_eq_self.mpr (fun m hm => by simp [hnone m hm])
  simp [deleteByUuid, hsafe, load_ensureBaseDir, hload, hfilter]

theorem deleteByUuid_match (st : Store) (topic safe uid : String) (msgs : List Msg)
    (hsafe : topicToFilename topic = .ok safe)
    (hload : loadMessagesUnlocked st topic = .ok msgs)
    (hchanged : (msgs.filter (fun m => !(msgUuidIs m uid))).length ≠ msgs.length) :
    deleteByUuid st topic uid
      = (.ok true,
         saveMessagesUnlocked (ensureBaseDir st) topic
           (msgs.filter (fun m => !(msgUuidIs m uid)))) := by
  simp [deleteByUuid, hsafe, load_ensureBaseDir, hload, hchanged]

theorem replaceByUuid_nomatch (st : Store) (topic safe uid content upd : String)
    (msgs : List Msg)
    (hsafe : topicToFilename topic = .ok safe)
    (hload : loadMessagesUnlocked st topic = .ok msgs)
    (hnone : ∀ m ∈ msgs, msgUuidIs m uid = false) :
    replaceByUuid st upd topic uid content = (.ok false, ensureBaseDir st) := by
  simp [replaceByUuid, hsafe, load_ensureBaseDir, hload,
    replaceFirstByUuid_none uid content upd msgs hnone]

theorem append_saveCount (st : Store) (topic uid created content : String) :
    (append st uid created topic content).2.saveCount ≤ st.saveCount + 1 := by
  rcases hload : loadMessagesUnlocked st topic with e1 | msgs
  · rw [append_load_error st topic uid created content e1 hload]
    exact Nat.le_succ _
  · obtain ⟨safe, hsafe⟩ := load_ok_topicToFilename st topic msgs hload
    rw [append_ok st topic safe uid created content msgs hsafe hload]
    exact saveCount_save (ensureBaseDir st) topic _

theorem popFirst_saveCount (st : Store) (topic : String) :
    (popFirst st topic).2.saveCount ≤ st.saveCount + 1 := by
  rcases hload : loadMessagesUnlocked st topic with e1 | msgs
  · rw [popFirst_load_error st topic e1 hload]
    exact Nat.le_succ _
  · obtain ⟨safe, hsafe⟩ := load_ok_topicToFilename st topic msgs hload
    rcases msgs with _ | ⟨m, rest⟩
    · rw [popFirst_nil st topic safe hsafe hload]
      exact Nat.le_succ _
    · rw [popFirst_cons st topic safe m rest hsafe hload]
      exact saveCount_save (ensureBaseDir st) topic _

theorem deleteByUuid_saveCount (st : Store) (topic uid : String) :
    (deleteByUuid st topic uid).2.saveCount ≤ st.saveCount + 1 := by
  rcases hload : loadMessagesUnlocked st topic with e1 | msgs
  · rw [deleteByUuid_load_error st topic uid e1 hload]
    exact Nat.le_succ _
  · obtain ⟨safe, hsafe⟩ := load_ok_topicToFilename st topic msgs hload
    by_cases hlen : (msgs.filter (fun m => !(msgUuidIs m uid))).length = msgs.length
    · have : deleteByUuid st topic uid = (.ok false, ensureBaseDir st) := by
        simp [deleteByUuid, hsafe, load_ensureBaseDir, hload, hlen]
      rw [this]
      exact Nat.le_succ _
    · rw [deleteByUuid_match st topic safe uid msgs hsafe hload hlen]
      exact saveCount_save (ensureBaseDir st) topic _

theorem replaceByUuid_saveCount (st : Store) (topic uid content upd : String) :
    (replaceByUuid st upd topic uid content).2.saveCount ≤ st.saveCount + 1 := by
  rcases hload : loadMessagesUnlocked st topic with e1 | msgs
  · rw [replaceByUuid_load_error st topic uid content upd e1 hload]
    exact Nat.le_succ _
  · obtain ⟨safe, hsafe⟩ := load_ok_topicToFilename st topic msgs hload
    rcases hrepl : replaceFirstByUuid uid content upd msgs with _ | newMsgs
    · have : replaceByUuid st upd topic uid content = (.ok false, ensureBaseDir st) := by
        simp [replaceByUuid, hsafe, load_ensureBaseDir, hload, hrepl]
      rw [this]
      exact Nat.le_succ _
    · rw [replaceByUuid_found st topic safe uid content upd msgs newMsgs hsafe hload hrepl]
      exact saveCount_save (ensureBaseDir st) topic _

/-- C7.  Shared-lock operations (`peekFirst`, `getByUuid`, `listMessages`)
never change the stored files — their final state is exactly the initial
state with the base directory ensured, whose file map is unchanged.  When the
uuid matches no message, `deleteByUuid` and `replaceByUuid` return `false`
without writing.  Every exclusive operation performs at most one file
replacement. -/
theorem shared_no_write_exclusive_one_save (st : Store)
    (topic safe uid uid2 created content upd : String) (msgs : List Msg)
    (hsafe : topicToFilename topic = .ok safe)
    (hload : loadMessagesUnlocked st topic = .ok msgs)
    (hnone : ∀ m ∈ msgs, msgUuidIs m uid = false) :
    (peekFirst st topic).2 = ensureBaseDir st
    ∧ (getByUuid st topic uid2).2 = ensureBaseDir st
    ∧ (listMessages st topic).2 = ensureBaseDir st
    ∧ (ensureBaseDir st).files = st.files
    ∧ (ensureBaseDir st).saveCount = st.saveCount
    ∧ deleteByUuid st topic uid = (.ok false, ensureBaseDir st)
    ∧ replaceByUuid st upd topic uid content = (.ok false, ensureBaseDir st)
    ∧ (append st uid2 created topic content).2.saveCount ≤ st.saveCount + 1
    ∧ (popFirst st topic).2.saveCount ≤ st.saveCount + 1
    ∧ (deleteByUuid st topic uid2).2.saveCount ≤ st.saveCount + 1
    ∧ (replaceByUuid st upd topic uid2 content).2.saveCount ≤ st.saveCount + 1 :=
  ⟨peekFirst_state st topic,
   getByUuid_state st topic uid2,
   listMessages_state st topic,
   rfl, rfl,
   deleteByUuid_nomatch st topic safe uid msgs hsafe hload hnone,
   replaceByUuid_nomatch st topic safe uid content upd msgs hsafe hload hnone,
   append_saveCount st topic uid2 created content,
   popFirst_saveCount st topic,
   deleteByUuid_saveCount st topic uid2,
   replaceByUuid_saveCount st topic uid2 content upd⟩

/-- Witness for C7: empty queue under topic `"t"`, no message matches. -/
theorem shared_no_write_exclusive_one_save_witness :
    (peekFirst ⟨"q", [], false, 0⟩ "t").2 = ensureBaseDir ⟨"q", [], false, 0⟩
    ∧ (getByUuid ⟨"q", [], false, 0⟩ "t" "u2").2 = ensureBaseDir ⟨"q", [], false, 0⟩
    ∧ (listMessages ⟨"q", [], false, 0⟩ "t").2 = ensureBaseDir ⟨"q", [], false, 0⟩
    ∧ (ensureBaseDir (⟨"q", [], false, 0⟩ : Store)).files = Store.files ⟨"q", [], false, 0⟩
    ∧ (ensureBaseDir (⟨"q", [], false, 0⟩ : Store)).saveCount
        = Store.saveCount ⟨"q", [], false, 0⟩
    ∧ deleteByUuid ⟨"q", [], false, 0⟩ "t" "u"
        = (.ok false, ensureBaseDir ⟨"q", [], false, 0⟩)
    ∧ replaceByUuid ⟨"q", [], false, 0⟩ "d" "t" "u" "x"
        = (.ok false, ensureBaseDir ⟨"q", [], false, 0⟩)
    ∧ (append ⟨"q", [], false, 0⟩ "u2" "c" "t" "x").2.saveCount
        ≤ Store.saveCount ⟨"q", [], false, 0⟩ + 1
    ∧ (popFirst ⟨"q", [], false, 0⟩ "t").2.saveCount
        ≤ Store.saveCount ⟨"q", [], false, 0⟩ + 1
    ∧ (deleteByUuid ⟨"q", [], false, 0⟩ "t" "u2").2.saveCount
        ≤ Store.saveCount ⟨"q", [], false, 0⟩ + 1
    ∧ (replaceByUuid ⟨"q", [], false, 0⟩ "d" "t" "u2" "x").2.saveCount
        ≤ Store.saveCount ⟨"q", [], false, 0⟩ + 1 :=
  shared_no_write_exclusive_one_save ⟨"q", [], false, 0⟩ "t" "t" "u" "u2" "c" "x" "d" []
    rfl rfl (fun m hm => absurd hm (List.not_mem_nil m))

/-! ## C9: duplicate uuids — delete removes all, replace updates the first -/

/-- C9.  When the stored list holds several entries with the same uuid
(here: one first match `m1` after a non-matching prefix `pre`, and at least
one further match inside `post`), a single `deleteByUuid` removes every
matching entry and returns `true`, while `replaceByUuid` returns `true` and
rewrites only the first match, leaving `post` — and with it every later
duplicate — byte-for-byte unchanged. -/
theorem duplicate_uuid_delete_all_replace_first (st : Store)
    (topic safe uid content upd : String) (pre post : List Msg) (m1 : Msg)
    (hsafe : topicToFilename topic = .ok safe)
    (hload : loadMessagesUnlocked st topic = .ok (pre ++ m1 :: post))
    (hpre : ∀ m ∈ pre, msgUuidIs m uid = false)
    (hm1 : msgUuidIs m1 uid = true)
    (hdup : ∃ m2 ∈ post, msgUuidIs m2 uid = true) :
    (deleteByUuid st topic uid).1 = .ok true
    ∧ loadMessagesUnlocked (deleteByUuid st topic uid).2 topic
        = .ok ((pre ++ m1 :: post).filter (fun m => !(msgUuidIs m uid)))
    ∧ (∀ m ∈ (pre ++ m1 :: post).filter (fun m => !(msgUuidIs m uid)),
         msgUuidIs m uid = false)
    ∧ (replaceByUuid st upd topic uid content).1 = .ok true
    ∧ loadMessagesUnlocked (replaceByUuid st upd topic uid content).2 topic
        = .ok (pre ++
            (setKey (setKey m1 "content" (.str content)) "updated" (.str upd)) :: post) := by
  obtain ⟨m2, hm2mem, hm2⟩ := hdup
  have hvalidAll := load_ok_valid st topic (pre ++ m1 :: post) hload
  have hfiltApp : (pre ++ m1 :: post).filter (fun m => !(msgUuidIs m uid))
      = pre.filter (fun m => !(msgUuidIs m uid))
        ++ post.filter (fun m => !(msgUuidIs m uid)) := by
    simp [List.filter_append, List.filter_cons, hm1]
  have hlen : ((pre ++ m1 :: post).filter (fun m => !(msgUuidIs m uid))).length
      ≠ (pre ++ m1 :: post).length := by
    have h1 := List.length_filter_le (fun m => !(msgUuidIs m uid)) pre
    have h2 := List.length_filter_le (fun m => !(msgUuidIs m uid)) post
    rw [hfiltApp]
    simp only [List.length_append, List.length_cons]
    omega
  have hdel := deleteByUuid_match st topic safe uid (pre ++ m1 :: post) hsafe hload hlen
  have hfiltValid : ∀ m ∈ (pre ++ m1 :: post).filter (fun m => !(msgUuidIs m uid)),
      validMsg m = true :=
    fun m hm => hvalidAll m (List.mem_of_mem_filter hm)
  have hrepl := replaceFirstByUuid_append uid content upd pre m1 post hpre hm1
  have hreplEq := replaceByUuid_found st topic safe uid content upd
    (pre ++ m1 :: post) _ hsafe hload hrepl
  have hreplValid : ∀ m ∈ pre ++
      (setKey (setKey m1 "content" (.str content)) "updated" (.str upd)) :: post,
      validMsg m = true := by
    intro m hm
    rcases List.mem_append.mp hm with hm' | hm'
    · exact hvalidAll m (List.mem_append.mpr (Or.inl hm'))
    · rcases List.mem_cons.mp hm' with rfl | hm''
      · exact validMsg_replaced m1 content upd
          (hvalidAll m1 (List.mem_append.mpr (Or.inr (List.mem_cons_self m1 post))))
      · exact hvalidAll m (List.mem_append.mpr (Or.inr (List.mem_cons_of_mem m1 hm'')))
  refine ⟨by rw [hdel], ?_, ?_, by rw [hreplEq], ?_⟩
  · have h2 : (deleteByUuid st topic uid).2
        = saveMessagesUnlocked (ensureBaseDir st) topic
            ((pre ++ m1 :: post).filter (fun m => !(msgUuidIs m uid))) := by
      rw [hdel]
    rw [h2]
    exact load_save _ topic safe _ hsafe hfiltValid
  · intro m hm
    have := List.of_mem_filter hm
    simpa using this
  · have h2 : (replaceByUuid st upd topic uid content).2
        = saveMessagesUnlocked (ensureBaseDir st) topic
            (pre ++
              (setKey (setKey m1 "content" (.str content)) "updated" (.str upd)) :: post) := by
      rw [hreplEq]
    rw [h2]
    exact load_save _ topic safe _ hsafe hreplValid

/-- Witness for C9: two stored messages both carrying uuid `"u"`. -/
theorem duplicate_uuid_delete_all_replace_first_witness :
    (deleteByUuid
        ⟨"q", [("t.json", RawFile.json (.arr
          [.obj [("uuid", .str "u"), ("content", .str "a")],
           .obj [("uuid", .str "u"), ("content", .str "b")]]))], true, 0⟩
        "t" "u").1 = .ok true
    ∧ loadMessagesUnlocked
        (deleteByUuid
          ⟨"q", [("t.json", RawFile.json (.arr
            [.obj [("uuid", .str "u"), ("content", .str "a")],
             .obj [("uuid", .str "u"), ("content", .str "b")]]))], true, 0⟩
          "t" "u").2 "t"
        = .ok (([] ++ [("uuid", Json.str "u"), ("content", Json.str "a")]
            :: [[("uuid", Json.str "u"), ("content", Json.str "b")]]).filter
              (fun m => !(msgUuidIs m "u")))
    ∧ (∀ m ∈ (([] ++ [("uuid", Json.str "u"), ("content", Json.str "a")]
            :: [[("uuid", Json.str "u"), ("content", Json.str "b")]]).filter
              (fun m => !(msgUuidIs m "u"))),
         msgUuidIs m "u" = false)
    ∧ (replaceByUuid
        ⟨"q", [("t.json", RawFile.json (.arr
          [.obj [("uuid", .str "u"), ("content", .str "a")],
           .obj [("uuid", .str "u"), ("content", .str "b")]]))], true, 0⟩
        "d" "t" "u" "c2").1 = .ok true
    ∧ loadMessagesUnlocked
        (replaceByUuid
          ⟨"q", [("t.json", RawFile.json (.arr
            [.obj [("uuid", .str "u"), ("content", .str "a")],
             .obj [("uuid", .str "u"), ("content", .str "b")]]))], true, 0⟩
          "d" "t" "u" "c2").2 "t"
        = .ok ([] ++
            (setKey (setKey [("uuid", Json.str "u"), ("content", Json.str "a")]
              "content" (.str "c2")) "updated" (.str "d"))
            :: [[("uuid", Json.str "u"), ("content", Json.str "b")]]) :=
  duplicate_uuid_delete_all_replace_first
    ⟨"q", [("t.json", RawFile.json (.arr
      [.obj [("uuid", .str "u"), ("content", .str "a")],
       .obj [("uuid", .str "u"), ("content", .str "b")]]))], true, 0⟩
    "t" "t" "u" "c2" "d" []
    [[("uuid", Json.str "u"), ("content", Json.str "b")]]
    [("uuid", Json.str "u"), ("content", Json.str "a")]
    rfl rfl (fun m hm => absurd hm (List.not_mem_nil m)) rfl
    ⟨[("uuid", Json.str "u"), ("content", Json.str "b")],
     List.mem_cons_self _ _, rfl⟩

/-! ## C3: topic isolation

The claim as stated is false: the encoding is not collision-resistant over
all distinct topic strings, because `strip(".")` identifies e.g. `"a."` with
`"a"` (and stripping whitespace identifies `" a"` with `"a"`).  What does
hold: whenever two topics receive distinct encoded filenames, their data and
lock paths are distinct, operations on one never change the data file of the
other, and changing the data file of the other never changes any result of
an operation on this one. -/

theorem string_append_right_cancel (a b s : String) (h : a ++ s = b ++ s) : a = b := by
  have hd : a.data ++ s.data = b.data ++ s.data := congrArg String.data h
  have hab := List.append_left_injective s.data hd
  cases a
  cases b
  exact congrArg String.mk hab

theorem deleteByUuid_unchanged (st : Store) (topic safe uid : String) (msgs : List Msg)
    (hsafe : topicToFilename topic = .ok safe)
    (hload : loadMessagesUnlocked st topic = .ok msgs)
    (hlen : (msgs.filter (fun m => !(msgUuidIs m uid))).length = msgs.length) :
    deleteByUuid st topic uid = (.ok false, ensureBaseDir st) := by
  simp [deleteByUuid, hsafe, load_ensureBaseDir, hload, hlen]

theorem replaceByUuid_notfound (st : Store) (topic safe uid content upd : String)
    (msgs : List Msg)
    (hsafe : topicToFilename topic = .ok safe)
    (hload : loadMessagesUnlocked st topic = .ok msgs)
    (hrepl : replaceFirstByUuid uid content upd msgs = none) :
    replaceByUuid st upd topic uid content = (.ok false, ensureBaseDir st) := by
  simp [replaceByUuid, hsafe, load_ensureBaseDir, hload, hrepl]

theorem append_files_frame (st : Store) (topic safe uid created content n : String)
    (hsafe : topicToFilename topic = .ok safe) (hn : n ≠ dataFileName safe) :
    getFile (append st uid created topic content).2.files n = getFile st.files n := by
  rcases hload : loadMessagesUnlocked st topic with e1 | msgs
  · rw [append_load_error st topic uid created content e1 hload]
    rfl
  · rw [append_ok st topic safe uid created content msgs hsafe hload]
    exact files_save_ne (ensureBaseDir st) topic safe _ n hsafe hn

theorem popFirst_files_frame (st : Store) (topic safe n : String)
    (hsafe : topicToFilename topic = .ok safe) (hn : n ≠ dataFileName safe) :
    getFile (popFirst st topic).2.files n = getFile st.files n := by
  rcases hload : loadMessagesUnlocked st topic with e1 | msgs
  · rw [popFirst_load_error st topic e1 hload]
    rfl
  · rcases msgs with _ | ⟨m, rest⟩
    · rw [popFirst_nil st topic safe hsafe hload]
      rfl
    · rw [popFirst_cons st topic safe m rest hsafe hload]
      exact files_save_ne (ensureBaseDir st) topic safe _ n hsafe hn

theorem deleteByUuid_files_frame (st : Store) (topic safe uid n : String)
    (hsafe : topicToFilename topic = .ok safe) (hn : n ≠ dataFileName safe) :
    getFile (deleteByUuid st topic uid).2.files n = getFile st.files n := by
  rcases hload : loadMessagesUnlocked st topic with e1 | msgs
  · rw [deleteByUuid_load_error st topic uid e1 hload]
    rfl
  · by_cases hlen : (msgs.filter (fun m => !(msgUuidIs m uid))).length = msgs.length
    · rw [deleteByUuid_unchanged st topic safe uid msgs hsafe hload hlen]
      rfl
    · rw [deleteByUuid_match st topic safe uid msgs hsafe hload hlen]
      exact files_save_ne (ensureBaseDir st) topic safe _ n hsafe hn

theorem replaceByUuid_files_frame (st : Store) (topic safe uid content upd n : String)
    (hsafe : topicToFilename topic = .ok safe) (hn : n ≠ dataFileName safe) :
    getFile (replaceByUuid st upd topic uid content).2.files n = getFile st.files n := by
  rcases hload : loadMessagesUnlocked st topic with e1 | msgs
  · rw [replaceByUuid_load_error st topic uid content upd e1 hload]
    rfl
  · rcases hrepl : replaceFirstByUuid uid content upd msgs with _ | newMsgs
    · rw [replaceByUuid_notfound st topic safe uid content upd msgs hsafe hload hrepl]
      rfl
    · rw [replaceByUuid_found st topic safe uid content upd msgs newMsgs hsafe hload hrepl]
      exact files_save_ne (ensureBaseDir st) topic safe _ n hsafe hn

theorem load_other_file (st : Store) (topic safe n : String) (v : RawFile)
    (hsafe : topicToFilename topic = .ok safe) (hn : n ≠ dataFileName safe) :
    loadMessagesUnlocked { st with files := setFile st.files n v } topic
      = loadMessagesUnlocked st topic := by
  unfold loadMessagesUnlocked
  simp only [hsafe]
  rw [getFile_setFile_ne st.files n (dataFileName safe) v (Ne.symm hn)]
  rfl

theorem append_result_other_file (st : Store)
    (topic safe uid created content n : String) (v : RawFile)
    (hsafe : topicToFilename topic = .ok safe) (hn : n ≠ dataFileName safe) :
    (append { st with files := setFile st.files n v } uid created topic content).1
      = (append st uid created topic content).1 := by
  have hl := load_other_file st topic safe n v hsafe hn
  rcases hload : loadMessagesUnlocked st topic with e1 | msgs
  · rw [append_load_error _ topic uid created content e1 (hl.trans hload),
      append_load_error st topic uid created content e1 hload]
  · rw [append_ok _ topic safe uid created content msgs hsafe (hl.trans hload),
      append_ok st topic safe uid created content msgs hsafe hload]

theorem popFirst_result_other_file (st : Store) (topic safe n : String) (v : RawFile)
    (hsafe : topicToFilename topic = .ok safe) (hn : n ≠ dataFileName safe) :
    (popFirst { st with files := setFile st.files n v } topic).1
      = (popFirst st topic).1 := by
  have hl := load_other_file st topic safe n v hsafe hn
  rcases hload : loadMessagesUnlocked st topic with e1 | msgs
  · rw [popFirst_load_error _ topic e1 (hl.trans hload),
      popFirst_load_error st topic e1 hload]
  · rcases msgs with _ | ⟨m, rest⟩
    · rw [popFirst_nil _ topic safe hsafe (hl.trans hload),
        popFirst_nil st topic safe hsafe hload]
    · rw [popFirst_cons _ topic safe m rest hsafe (hl.trans hload),
        popFirst_cons st topic safe m rest hsafe hload]

theorem peekFirst_result_other_file (st : Store) (topic safe n : String) (v : RawFile)
    (hsafe : topicToFilename topic = .ok safe) (hn : n ≠ dataFileName safe) :
    (peekFirst { st with files := setFile st.files n v } topic).1
      = (peekFirst st topic).1 := by
  have hl := load_other_file st topic safe n v hsafe hn
  rcases hload : loadMessagesUnlocked st topic with e1 | msgs
  · rw [peekFirst_load_error _ topic e1 (hl.trans hload),
      peekFirst_load_error st topic e1 hload]
  · rw [peekFirst_ok _ topic safe msgs hsafe (hl.trans hload),
      peekFirst_ok st topic safe msgs hsafe hload]

theorem getByUuid_result_other_file (st : Store) (topic safe uid n : String) (v : RawFile)
    (hsafe : topicToFilename topic = .ok safe) (hn : n ≠ dataFileName safe) :
    (getByUuid { st with files := setFile st.files n v } topic uid).1
      = (getByUuid st topic uid).1 := by
  have hl := load_other_file st topic safe n v hsafe hn
  rcases hload : loadMessagesUnlocked st topic with e1 | msgs
  · rw [getByUuid_load_error _ topic uid e1 (hl.trans hload),
      getByUuid_load_error st topic uid e1 hload]
  · rw [getByUuid_eq _ topic safe uid msgs hsafe (hl.trans hload),
      getByUuid_eq st topic safe uid msgs hsafe hload]

theorem listMessages_result_other_file (st : Store) (topic safe n : String) (v : RawFile)
    (hsafe : topicToFilename topic = .ok safe) (hn : n ≠ dataFileName safe) :
    (listMessages { st with files := setFile st.files n v } topic).1
      = (listMessages st topic).1 := by
  have hl := load_other_file st topic safe n v hsafe hn
  rcases hload : loadMessagesUnlocked st topic with e1 | msgs
  · rw [listMessages_load_error _ topic e1 (hl.trans hload),
      listMessages_load_error st topic e1 hload]
  · rw [listMessages_ok _ topic safe msgs hsafe (hl.trans hload),
      listMessages_ok st topic safe msgs hsafe hload]

theorem deleteByUuid_result_other_file (st : Store) (topic safe uid n : String) (v : RawFile)
    (hsafe : topicToFilename topic = .ok safe) (hn : n ≠ dataFileName safe) :
    (deleteByUuid { st with files := setFile st.files n v } topic uid).1
      = (deleteByUuid st topic uid).1 := by
  have hl := load_other_file st topic safe n v hsafe hn
  rcases hload : loadMessagesUnlocked st topic with e1 | msgs
  · rw [deleteByUuid_load_error _ topic uid e1 (hl.trans hload),
      deleteByUuid_load_error st topic uid e1 hload]
  · by_cases hlen : (msgs.filter (fun m => !(msgUuidIs m uid))).length = msgs.length
    · rw [deleteByUuid_unchanged _ topic safe uid msgs hsafe (hl.trans hload) hlen,
        deleteByUuid_unchanged st topic safe uid msgs hsafe hload hlen]
    · rw [deleteByUuid_match _ topic safe uid msgs hsafe (hl.trans hload) hlen,
        deleteByUuid_match st topic safe uid msgs hsafe hload hlen]

theorem replaceByUuid_result_other_file (st : Store)
    (topic safe uid content upd n : String) (v : RawFile)
    (hsafe : topicToFilename topic = .ok safe) (hn : n ≠ dataFileName safe) :
    (replaceByUuid { st with files := setFile st.files n v } upd topic uid content).1
      = (replaceByUuid st upd topic uid content).1 := by
  have hl := load_other_file st topic safe n v hsafe hn
  rcases hload : loadMessagesUnlocked st topic with e1 | msgs
  · rw [replaceByUuid_load_error _ topic uid content upd e1 (hl.trans hload),
      replaceByUuid_load_error st topic uid content upd e1 hload]
  · rcases hrepl : replaceFirstByUuid uid content upd msgs with _ | newMsgs
    · rw [replaceByUuid_notfound _ topic safe uid content upd msgs hsafe (hl.trans hload) hrepl,
        replaceByUuid_notfound st topic safe uid content upd msgs hsafe hload hrepl]
    · rw [replaceByUuid_found _ topic safe uid content upd msgs newMsgs hsafe
          (hl.trans hload) hrepl,
        replaceByUuid_found st topic safe uid content upd msgs newMsgs hsafe hload hrepl]

/-- Counterexample to C3 as stated: `"a."` and `"a"` are distinct topic
strings that encode to the same filename, and the message appended under
topic `"a."` is observed and removed by `popFirst` under topic `"a"`. -/
theorem topic_isolation_counterexample :
    ("a." : String) ≠ "a"
    ∧ topicToFilename "a." = .ok "a"
    ∧ topicToFilename "a" = .ok "a"
    ∧ (popFirst (append ⟨"q", [], false, 0⟩ "u1" "c1" "a." "hello").2 "a").1
        = .ok (some (mkMsg "u1" "c1" "hello")) := by
  refine ⟨by decide, rfl, rfl, rfl⟩

/-- C3 (amended).  For topics `A`, `B` whose encodings succeed with distinct
encoded filenames, the data and lock paths are distinct, no operation on `A`
changes the data file of `B`, and no result of an operation on `A` depends
on the data file of `B` (so operations on `A` neither mutate nor observe the
messages of `B`).  As stated the claim fails, because distinct topics can
share an encoding (see the counterexample). -/
theorem topic_isolation_of_distinct_filenames (st : Store)
    (A B safeA safeB uid created content upd : String) (v : RawFile)
    (hA : topicToFilename A = .ok safeA)
    (_hB : topicToFilename B = .ok safeB)
    (hne : safeA ≠ safeB) :
    dataFileName safeA ≠ dataFileName safeB
    ∧ safeA ++ ".lock" ≠ safeB ++ ".lock"
    ∧ getFile (append st uid created A content).2.files (dataFileName safeB)
        = getFile st.files (dataFileName safeB)
    ∧ getFile (popFirst st A).2.files (dataFileName safeB)
        = getFile st.files (dataFileName safeB)
    ∧ getFile (peekFirst st A).2.files (dataFileName safeB)
        = getFile st.files (dataFileName safeB)
    ∧ getFile (getByUuid st A uid).2.files (dataFileName safeB)
        = getFile st.files (dataFileName safeB)
    ∧ getFile (listMessages st A).2.files (dataFileName safeB)
        = getFile st.files (dataFileName safeB)
    ∧ getFile (deleteByUuid st A uid).2.files (dataFileName safeB)
        = getFile st.files (dataFileName safeB)
    ∧ getFile (replaceByUuid st upd A uid content).2.files (dataFileName safeB)
        = getFile st.files (dataFileName safeB)
    ∧ (append { st with files := setFile st.files (dataFileName safeB) v }
          uid created A content).1 = (append st uid created A content).1
    ∧ (popFirst { st with files := setFile st.files (dataFileName safeB) v } A).1
        = (popFirst st A).1
    ∧ (peekFirst { st with files := setFile st.files (dataFileName safeB) v } A).1
        = (peekFirst st A).1
    ∧ (getByUuid { st with files := setFile st.files (dataFileName safeB) v } A uid).1
        = (getByUuid st A uid).1
    ∧ (listMessages { st with files := setFile st.files (dataFileName safeB) v } A).1
        = (listMessages st A).1
    ∧ (deleteByUuid { st with files := setFile st.files (dataFileName safeB) v } A uid).1
        = (deleteByUuid st A uid).1
    ∧ (replaceByUuid { st with files := setFile st.files (dataFileName safeB) v }
          upd A uid content).1 = (replaceByUuid st upd A uid content).1 := by
  have hnames : dataFileName safeA ≠ dataFileName safeB :=
    fun h => hne (string_append_right_cancel safeA safeB ".json" h)
  have hBA : dataFileName safeB ≠ dataFileName safeA := Ne.symm hnames
  exact ⟨hnames,
    fun h => hne (string_append_right_cancel safeA safeB ".lock" h),
    append_files_frame st A safeA uid created content _ hA hBA,
    popFirst_files_frame st A safeA _ hA hBA,
    (by rw [peekFirst_state st A]; rfl),
    (by rw [getByUuid_state st A uid]; rfl),
    (by rw [listMessages_state st A]; rfl),
    deleteByUuid_files_frame st A safeA uid _ hA hBA,
    replaceByUuid_files_frame st A safeA uid content upd _ hA hBA,
    append_result_other_file st A safeA uid created content _ v hA hBA,
    popFirst_result_other_file st A safeA _ v hA hBA,
    peekFirst_result_other_file st A safeA _ v hA hBA,
    getByUuid_result_other_file st A safeA uid _ v hA hBA,
    listMessages_result_other_file st A safeA _ v hA hBA,
    deleteByUuid_result_other_file st A safeA uid _ v hA hBA,
    replaceByUuid_result_other_file st A safeA uid content upd _ v hA hBA⟩

/-- Witness for the amended C3 at topics `"a"` and `"b"`. -/
theorem topic_isolation_of_distinct_filenames_witness :
    dataFileName "a" ≠ dataFileName "b"
    ∧ ("a" ++ ".lock") ≠ ("b" ++ ".lock")
    ∧ getFile (append ⟨"q", [], false, 0⟩ "u" "c" "a" "x").2.files (dataFileName "b")
        = getFile (Store.files ⟨"q", [], false, 0⟩) (dataFileName "b")
    ∧ getFile (popFirst ⟨"q", [], false, 0⟩ "a").2.files (dataFileName "b")
        = getFile (Store.files ⟨"q", [], false, 0⟩) (dataFileName "b")
    ∧ getFile (peekFirst ⟨"q", [], false, 0⟩ "a").2.files (dataFileName "b")
        = getFile (Store.files ⟨"q", [], false, 0⟩) (dataFileName "b")
    ∧ getFile (getByUuid ⟨"q", [], false, 0⟩ "a" "u").2.files (dataFileName "b")
        = getFile (Store.files ⟨"q", [], false, 0⟩) (dataFileName "b")
    ∧ getFile (listMessages ⟨"q", [], false, 0⟩ "a").2.files (dataFileName "b")
        = getFile (Store.files ⟨"q", [], false, 0⟩) (dataFileName "b")
    ∧ getFile (deleteByUuid ⟨"q", [], false, 0⟩ "a" "u").2.files (dataFileName "b")
        = getFile (Store.files ⟨"q", [], false, 0⟩) (dataFileName "b")
    ∧ getFile (replaceByUuid ⟨"q", [], false, 0⟩ "d" "a" "u" "x").2.files (dataFileName "b")
        = getFile (Store.files ⟨"q", [], false, 0⟩) (dataFileName "b")
    ∧ (append { (⟨"q", [], false, 0⟩ : Store) with
          files := setFile (Store.files ⟨"q", [], false, 0⟩) (dataFileName "b") RawFile.invalid }
          "u" "c" "a" "x").1 = (append ⟨"q", [], false, 0⟩ "u" "c" "a" "x").1
    ∧ (popFirst { (⟨"q", [], false, 0⟩ : Store) with
          files := setFile (Store.files ⟨"q", [], false, 0⟩) (dataFileName "b") RawFile.invalid }
          "a").1 = (popFirst ⟨"q", [], false, 0⟩ "a").1
    ∧ (peekFirst { (⟨"q", [], false, 0⟩ : Store) with
          files := setFile (Store.files ⟨"q", [], false, 0⟩) (dataFileName "b") RawFile.invalid }
          "a").1 = (peekFirst ⟨"q", [], false, 0⟩ "a").1
    ∧ (getByUuid { (⟨"q", [], false, 0⟩ : Store) with
          files := setFile (Store.files ⟨"q", [], false, 0⟩) (dataFileName "b") RawFile.invalid }
          "a" "u").1 = (getByUuid ⟨"q", [], false, 0⟩ "a" "u").1
    ∧ (listMessages { (⟨"q", [], false, 0⟩ : Store) with
          files := setFile (Store.files ⟨"q", [], false, 0⟩) (dataFileName "b") RawFile.invalid }
          "a").1 = (listMessages ⟨"q", [], false, 0⟩ "a").1
    ∧ (deleteByUuid { (⟨"q", [], false, 0⟩ : Store) with
          files := setFile (Store.files ⟨"q", [], false, 0⟩) (dataFileName "b") RawFile.invalid }
          "a" "u").1 = (deleteByUuid ⟨"q", [], false, 0⟩ "a" "u").1
    ∧ (replaceByUuid { (⟨"q", [], false, 0⟩ : Store) with
          files := setFile (Store.files ⟨"q", [], false, 0⟩) (dataFileName "b") RawFile.invalid }
          "d" "a" "u" "x").1 = (replaceByUuid ⟨"q", [], false, 0⟩ "d" "a" "u" "x").1 :=
  topic_isolation_of_distinct_filenames ⟨"q", [], false, 0⟩ "a" "b" "a" "b"
    "u" "c" "x" "d" RawFile.invalid rfl rfl (by decide)

/-! ## C5: empty-after-trim topics

The claim as stated is false on one point: inside `lock_topic` the code runs
`ensure_base_dir()` (a `mkdir`) *before* `paths_for_topic` raises the
empty-topic `ValueError`, so the base directory may be created even though
the topic never validates.  What does hold: the validation error is raised
before the lock file is opened, before any lock is taken and before any
topic file is read or written — the final state is exactly the initial state
with the base directory ensured, and the data files and save count are
untouched. -/

/-- Counterexample to C5 as stated: `append` on the whitespace-only topic
`" "` raises the validation error, yet the filesystem state has changed —
the base directory was created first. -/
theorem empty_topic_creates_base_dir_counterexample :
    (append ⟨"q", [], false, 0⟩ "u" "c" " " "x").1
        = .error (.valueError "topic is empty")
    ∧ (append ⟨"q", [], false, 0⟩ "u" "c" " " "x").2.baseDirExists = true
    ∧ Store.baseDirExists ⟨"q", [], false, 0⟩ = false :=
  ⟨rfl, rfl, rfl⟩

/-- C5 (amended).  For an empty-after-strip topic, every operation returns
the `ValueError "topic is empty"` validation error before touching any lock
or topic file: the final state is the initial state with only the base
directory ensured (which the code creates before validating), so the data
files and the save count are unchanged. -/
theorem empty_topic_rejected (st : Store) (topic uid created content upd : String)
    (htopic : pyStrip topic = "") :
    append st uid created topic content
        = (.error (.valueError "topic is empty"), ensureBaseDir st)
    ∧ popFirst st topic = (.error (.valueError "topic is empty"), ensureBaseDir st)
    ∧ peekFirst st topic = (.error (.valueError "topic is empty"), ensureBaseDir st)
    ∧ getByUuid st topic uid = (.error (.valueError "topic is empty"), ensureBaseDir st)
    ∧ listMessages st topic = (.error (.valueError "topic is empty"), ensureBaseDir st)
    ∧ deleteByUuid st topic uid = (.error (.valueError "topic is empty"), ensureBaseDir st)
    ∧ replaceByUuid st upd topic uid content
        = (.error (.valueError "topic is empty"), ensureBaseDir st)
    ∧ (ensureBaseDir st).files = st.files
    ∧ (ensureBaseDir st).saveCount = st.saveCount := by
  have hsafe : topicToFilename topic = .error (.valueError "topic is empty") := by
    unfold topicToFilename
    rw [htopic]
    rfl
  exact ⟨by simp only [append, hsafe], by simp only [popFirst, hsafe],
    by simp only [peekFirst, hsafe], by simp only [getByUuid, hsafe],
    by simp only [listMessages, hsafe], by simp only [deleteByUuid, hsafe],
    by simp only [replaceByUuid, hsafe], rfl, rfl⟩

/-- Witness for the amended C5 at the whitespace-only topic `"  "`. -/
theorem empty_topic_rejected_witness :
    append ⟨"q", [], false, 0⟩ "u" "c" "  " "x"
        = (.error (.valueError "topic is empty"), ensureBaseDir ⟨"q", [], false, 0⟩)
    ∧ popFirst ⟨"q", [], false, 0⟩ "  "
        = (.error (.valueError "topic is empty"), ensureBaseDir ⟨"q", [], false, 0⟩)
    ∧ peekFirst ⟨"q", [], false, 0⟩ "  "
        = (.error (.valueError "topic is empty"), ensureBaseDir ⟨"q", [], false, 0⟩)
    ∧ getByUuid ⟨"q", [], false, 0⟩ "  " "u"
        = (.error (.valueError "topic is empty"), ensureBaseDir ⟨"q", [], false, 0⟩)
    ∧ listMessages ⟨"q", [], false, 0⟩ "  "
        = (.error (.valueError "topic is empty"), ensureBaseDir ⟨"q", [], false, 0⟩)
    ∧ deleteByUuid ⟨"q", [], false, 0⟩ "  " "u"
        = (.error (.valueError "topic is empty"), ensureBaseDir ⟨"q", [], false, 0⟩)
    ∧ replaceByUuid ⟨"q", [], false, 0⟩ "d" "  " "u" "x"
        = (.error (.valueError "topic is empty"), ensureBaseDir ⟨"q", [], false, 0⟩)
    ∧ (ensureBaseDir (⟨"q", [], false, 0⟩ : Store)).files
        = Store.files ⟨"q", [], false, 0⟩
    ∧ (ensureBaseDir (⟨"q", [], false, 0⟩ : Store)).saveCount
        = Store.saveCount ⟨"q", [], false, 0⟩ :=
  empty_topic_rejected ⟨"q", [], false, 0⟩ "  " "u" "c" "x" "d" rfl

/-! ## C8: the filename encoding

The claim as stated is false on one point: it describes percent-encoding
over the allow-list `A–Z a–z 0–9 . _ -`, but the encoder used by the code
(`urllib.parse.quote`) additionally never encodes `'~'` (RFC 3986
unreserved), whatever the `safe` parameter says.  With `'~'` added to the
allow-list the described algorithm matches the code exactly, and the result
never exceeds 180 characters. -/


/-- Counterexample to C8 as stated: the trimmed non-empty topic `"~"` is
encoded by the code as `"~"`, while the algorithm written in the claim (with
`'~'` outside the allow-list) yields `"%7E"`. -/
theorem encode_allowlist_counterexample :
    pyStrip "~" = "~"
    ∧ ("~" : String) ≠ ""
    ∧ topicToFilename "~" = .ok "~"
    ∧ encodeSpecStrict "~" = "%7E"
    ∧ ("~" : String) ≠ "%7E" :=
  ⟨rfl, by decide, rfl, rfl, by decide⟩

theorem quoteChar_eq_specTilde : quoteChar = specQuoteCharTilde := by
  funext c
  unfold quoteChar specQuoteCharTilde
  have h : quoteUnquoted c = specAllowedTilde c := by
    simp [quoteUnquoted, specAllowedTilde, specAllowedStrict, Bool.or_assoc]
  rw [h]

theorem encodeTrimmed_eq_specTilde (t : String) :
    encodeTrimmed t = encodeSpecTilde t := by
  unfold encodeTrimmed encodeSpecTilde pyQuote sha16
  rw [quoteChar_eq_specTilde]

theorem string_mk_length (l : List Char) : (String.mk l).length = l.length := rfl

theorem sha16_length (t : String) : (sha16 t).length = 16 := by
  unfold sha16
  rw [List.length_take, sha256hexdigest_length]
  rfl

theorem encodeTrimmed_length_le (t : String) : (encodeTrimmed t).length ≤ 180 := by
  have hsha : ((sha256hexdigest (strUtf8 t)).take 16).length = 16 := by
    rw [List.length_take, sha256hexdigest_length]
    rfl
  simp only [encodeTrimmed, sha16]
  by_cases h0 : stripDots (pyQuote t) = []
  · simp only [h0, reduceIte]
    rw [if_neg (by rw [hsha]; omega)]
    rw [string_mk_length, hsha]
    omega
  · simp only [h0, if_neg h0, reduceIte]
    by_cases h1 : 180 < (stripDots (pyQuote t)).length
    · rw [if_pos h1, string_mk_length]
      have h2 : ((stripDots (pyQuote t)).take 150).length ≤ 150 := by
        rw [List.length_take]
        omega
      simp only [List.length_append, List.length_cons, hsha]
      omega
    · rw [if_neg h1, string_mk_length]
      omega

/-- C8 (amended).  For every non-empty trimmed topic the code encoding is
exactly the described pipeline — percent-encoding over the allow-list
`A–Z a–z 0–9 . _ - ~` (the written claim omits `'~'`, which the encoder
never quotes), dot-stripping, 16-hex-digest fallback when empty, and
truncation to 150 characters plus `"__"` plus the 16-hex digest of the topic
beyond 180 characters — and the encoded filename never exceeds 180
characters.  Determinism is inherent: the encoding is a pure function of the
topic. -/
theorem encode_matches_spec_and_bounded (topic : String)
    (htrim : pyStrip topic = topic) (hne : topic ≠ "") :
    topicToFilename topic = .ok (encodeSpecTilde topic)
    ∧ (encodeSpecTilde topic).length ≤ 180 := by
  have h1 : topicToFilename topic = .ok (encodeTrimmed topic) := by
    unfold topicToFilename
    rw [htrim]
    simp [hne]
  refine ⟨?_, ?_⟩
  · rw [h1, encodeTrimmed_eq_specTilde]
  · rw [← encodeTrimmed_eq_specTilde]
    exact encodeTrimmed_length_le topic

/-- Witness for the amended C8 at the topic `"origin:main"`. -/
theorem encode_matches_spec_and_bounded_witness :
    topicToFilename "origin:main" = .ok (encodeSpecTilde "origin:main")
    ∧ (encodeSpecTilde "origin:main").length ≤ 180 :=
  encode_matches_spec_and_bounded "origin:main" rfl (by decide)

end ClaudeQ
